import Mathlib

/-!
Verification development for the `docs-scraper` repository.

The repository is Python; we shallowly embed the functions the claims are
about.  Python strings are modelled as `List Char` (named `Str`), Python
exceptions as `Except PyErr`, and the pieces of `urllib.parse` that the
repository calls (`urlparse`/`geturl`/`urljoin`/`.hostname`) are modelled
character by character after CPython's `urllib/parse.py`.  Each definition
carries a comment naming the source location it embeds.
-/

namespace DocsScraper

/-- Python `str` is modelled as a list of characters. -/
abbrev Str := List Char

/-- Converts a Lean string literal to the `Str` model. -/
def chars (s : String) : Str := s.data

/-- Python `s.split(c, 1)`: characters before the first occurrence of `c`,
and, when `c` occurs, the characters after it. -/
def splitFirst (c : Char) : Str → Str × Option Str
  | [] => ([], none)
  | a :: t =>
    if a = c then ([], some t)
    else
      let r := splitFirst c t
      (a :: r.1, r.2)

/-- Python `s.split(c)` (full split, keeping empty pieces). -/
def pySplit (c : Char) : Str → List Str
  | [] => [[]]
  | a :: t =>
    if a = c then [] :: pySplit c t
    else
      match pySplit c t with
      | [] => [[a]]
      | p :: ps => (a :: p) :: ps

/-- Python `sep.join(parts)`. -/
def joinSep (sep : Str) : List Str → Str
  | [] => []
  | [x] => x
  | x :: y :: xs => x ++ sep ++ joinSep sep (y :: xs)

/-- Python `s.startswith(p)`. -/
def hasPrefix : Str → Str → Bool
  | [], _ => true
  | _ :: _, [] => false
  | a :: p, b :: s => a = b && hasPrefix p s

/-- Python `s.endswith(p)`. -/
def hasSuffix (p s : Str) : Bool := hasPrefix p.reverse s.reverse

/-- Python `re.sub(r'/$', '', s)`: drops one trailing `/` if present
(`utils.py:37`, `docs_crawler.py:96`, `config.py:85`). -/
def rstripOne (s : Str) : Str :=
  match s.reverse with
  | '/' :: t => t.reverse
  | _ => s

/-- The single Python exception kind the embedded code can raise (the
`ValueError` from tuple unpacking in `utils.cleanup_url`). -/
inductive PyErr
  | valueError
deriving DecidableEq, Repr

/-! ### Model of `urllib.parse` (CPython `urllib/parse.py`)

Only the parts the repository uses: `urlparse` (modelled without the
rarely-used `;params` component, which `geturl` re-joins unchanged, so
parse-then-unparse results are unaffected), `geturl`/`urlunparse`,
`urljoin(base, '')` (which CPython returns as `base` unchanged), and the
`.hostname` accessor.  `str.lower()` is modelled on ASCII letters, which
covers every input appearing in the claims and everything the scheme
validation lets through. -/

/-- ASCII lowercasing of one character, as CPython applies to scheme and
hostname (both are ASCII in all inputs considered here). -/
def py_lower (c : Char) : Char :=
  if 65 ≤ c.toNat ∧ c.toNat ≤ 90 then Char.ofNat (c.toNat + 32) else c

/-- CPython `scheme_chars`: letters, digits, `+`, `-`, `.`. -/
def isSchemeChar (c : Char) : Bool :=
  c.isAlphanum || c == '+' || c == '-' || c == '.'

/-- Characters that terminate the netloc in CPython `_splitnetloc`. -/
def isNetlocChar (c : Char) : Bool :=
  !(c == '/' || c == '?' || c == '#')

/-- Result of CPython `urlsplit` (without the `params` component). -/
structure SplitResult where
  scheme : Str
  netloc : Str
  path : Str
  query : Str
  fragment : Str
deriving DecidableEq, Repr

/-- CPython scheme detection: `i = url.find(':')`, accept `url[:i]` as the
scheme when `i > 0`, its first character is an ASCII letter, and every
character is in `scheme_chars`; the scheme is lowercased. -/
def splitScheme (url : Str) : Str × Str :=
  match splitFirst ':' url with
  | (before, some after) =>
    match before with
    | [] => ([], url)
    | c :: rest =>
      if c.isAlpha ∧ (c :: rest).all isSchemeChar then
        ((c :: rest).map py_lower, after)
      else ([], url)
  | (_, none) => ([], url)

/-- CPython netloc extraction: when the remainder starts with `//`, the
netloc runs until the first `/`, `?` or `#`. -/
def splitNetlocPart (url : Str) : Str × Str :=
  if url.take 2 = ['/', '/'] then
    ((url.drop 2).takeWhile isNetlocChar, (url.drop 2).dropWhile isNetlocChar)
  else ([], url)

/-- CPython fragment split: `url.split('#', 1)` when `#` occurs. -/
def splitFrag (url : Str) : Str × Str :=
  match splitFirst '#' url with
  | (b, some a) => (b, a)
  | (b, none) => (b, [])

/-- CPython query split: `url.split('?', 1)` when `?` occurs. -/
def splitQuery (url : Str) : Str × Str :=
  match splitFirst '?' url with
  | (b, some a) => (b, a)
  | (b, none) => (b, [])

/-- Model of CPython `urlsplit` (scheme, then netloc, then fragment, then
query, exactly in CPython's order). -/
def urlsplit (url : Str) : SplitResult :=
  let s1 := splitScheme url
  let s2 := splitNetlocPart s1.2
  let s3 := splitFrag s2.2
  let s4 := splitQuery s3.1
  ⟨s1.1, s2.1, s4.1, s4.2, s3.2⟩

/-- Model of CPython `urlunsplit`, which is what `ParseResult.geturl`
computes here (the `params` component is always empty for our model). -/
def urlunsplit (p : SplitResult) : Str :=
  let u0 := p.path
  let u1 :=
    if p.netloc ≠ [] ∨ u0.take 2 = ['/', '/'] then
      ['/', '/'] ++ p.netloc ++ (if u0 ≠ [] ∧ u0.take 1 ≠ ['/'] then '/' :: u0 else u0)
    else u0
  let u2 := if p.scheme ≠ [] then p.scheme ++ ':' :: u1 else u1
  let u3 := if p.query ≠ [] then u2 ++ '?' :: p.query else u2
  if p.fragment ≠ [] then u3 ++ '#' :: p.fragment else u3

/-- CPython `.hostname`: the netloc after the last `@`, up to the first
`:`, lowercased; `None` when empty (IPv6 bracket syntax is not modelled —
no claim involves it). -/
def pyHostname (netloc : Str) : Option Str :=
  let hostinfo := (netloc.reverse.takeWhile (· ≠ '@')).reverse
  let host := hostinfo.takeWhile (· ≠ ':')
  if host = [] then none else some (host.map py_lower)

/-! ### `src/docs_crawler/utils.py` -/

/-- `utils.extract_domain` (`utils.py:132-151`): `urlparse(url).hostname or ""`,
then strip a leading `www.`.  The Python `try/except` around `urlparse`
never fires (accessing `.hostname` does not raise), so the model is total. -/
def extract_domain (url : Str) : Str :=
  let d := (pyHostname (urlsplit url).netloc).getD []
  if hasPrefix (chars "www.") d then d.drop 4 else d

/-- `utils.is_same_domain` (`utils.py:154-167`).  Python returns
`domain1 and domain2 and domain1 == domain2`, which is truthy exactly when
both domains are non-empty and equal. -/
def is_same_domain (url1 url2 : Str) : Bool :=
  let d1 := extract_domain url1
  let d2 := extract_domain url2
  decide (d1 ≠ [] ∧ d2 ≠ [] ∧ d1 = d2)

/-- `utils.is_subdomain` (`utils.py:170-187`): `url1`'s domain equals
`url2`'s or ends with `'.' + url2`'s domain. -/
def is_subdomain (url1 url2 : Str) : Bool :=
  let d1 := extract_domain url1
  let d2 := extract_domain url2
  if d1 = [] ∨ d2 = [] then false
  else hasSuffix ('.' :: d2) d1 || decide (d1 = d2)

/-- Python dict assignment `params[k] = v` on an insertion-ordered dict:
update in place when the key exists, else append. -/
def dictUpsert (k v : Str) : List (Str × Str) → List (Str × Str)
  | [] => [(k, v)]
  | (k', v') :: rest =>
    if k' = k then (k', v) :: rest else (k', v') :: dictUpsert k v rest

/-- The query loop of `utils.cleanup_url` (`utils.py:43-47`):
`for key, value in parsed.query.split('&')` tuple-unpacks each part, so a
part whose length is not exactly 2 raises `ValueError`.  For a two-character
part `key` is its first character; `'=' in key` holds only when that
character is `=`, in which case `key.split('=', 1)` yields `('', '')` and
the pair `('', '')` is stored (`''` does not start with `utm_`). -/
def utm_loop : List Str → List (Str × Str) → Except PyErr (List (Str × Str))
  | [], acc => .ok acc
  | part :: rest, acc =>
    match part with
    | [c1, _] =>
      if c1 = '=' then utm_loop rest (dictUpsert [] [] acc)
      else utm_loop rest acc
    | _ => .error .valueError

/-- `utils.cleanup_url` (`utils.py:19-54`): empty input returned as is;
drop everything from the first `#`; drop one trailing `/`; when
`strip_utm`, run the query loop above, rebuild the query with
`'&'.join(f"{k}={v}")`, and return `urljoin(parsed.geturl(), '')` — CPython
`urljoin(base, '')` returns `base` unchanged, i.e. `geturl` of the parse
result with the rebuilt query. -/
def cleanup_url (url : Str) (strip_utm : Bool := true) : Except PyErr Str :=
  if url = [] then .ok url
  else
    let url1 := (splitFirst '#' url).1
    let url2 := rstripOne url1
    if strip_utm then
      let parsed := urlsplit url2
      let parts := if parsed.query = [] then [] else pySplit '&' parsed.query
      match utm_loop parts [] with
      | .error e => .error e
      | .ok params =>
        let new_query := joinSep ['&'] (params.map fun kv => kv.1 ++ '=' :: kv.2)
        .ok (urlunsplit { parsed with query := new_query })
    else .ok url2

/-- `utils.normalize_url` (`utils.py:57-67`): `cleanup_url(url, strip_utm=True)`. -/
def normalize_url (url : Str) : Except PyErr Str := cleanup_url url true

/-- `utils.is_url_visited` (`utils.py:70-81`), with the global `VISITED_URLS`
set passed explicitly: membership of the normalized URL (propagating the
exception `normalize_url` can raise). -/
def is_url_visited (visited : List Str) (url : Str) : Except PyErr Bool :=
  (normalize_url url).map (fun u => decide (u ∈ visited))

/-- `utils.mark_url_visited` (`utils.py:84-92`): adds the normalized URL to
the visited set. -/
def mark_url_visited (visited : List Str) (url : Str) : Except PyErr (List Str) :=
  (normalize_url url).map (fun u => if u ∈ visited then visited else u :: visited)

/-! ### `src/docs_crawler/persistence.py`

The two persistence strategies are embedded as state machines over explicit
records.  The filesystem is a map path ↦ content recording successful
complete writes; an injected `fail : Bool` models the `open`/`write` inside
a `try` raising `OSError` (after a failed write the on-disk content is
unspecified, and no claim reads it, so the model leaves `files` unchanged).
The `defaultdict` accesses that merely materialise an empty default entry
are modelled as pure lookups: an empty buffer entry is skipped by every
flush, so this is unobservable in any claim. -/

/-- `persistence.SavedFileInfo` (`persistence.py:25-30`). -/
structure SavedFileInfo where
  url : Str
  path : Str
  size : Nat
deriving DecidableEq, Repr

/-- `persistence.SavedDomainFileInfo` (`persistence.py:33-40`). -/
structure SavedDomainFileInfo where
  domain : Str
  path : Str
  pages : Nat
  size : Nat
  urls : List Str
deriving DecidableEq, Repr

/-- One buffered `{"url": ..., "content": ...}` item (`persistence.py:268-271`). -/
structure BufItem where
  url : Str
  content : Str
deriving DecidableEq, Repr

/-- Python whitespace (ASCII subset) for `str.strip()`. -/
def pyIsSpace (c : Char) : Bool :=
  c == ' ' || c == '\t' || c == '\n' || c == '\r' || c == '\x0b' || c == '\x0c'

/-- Python `not content or not content.strip()`: true exactly when the
content is empty or all-whitespace. -/
def pyBlank (c : Str) : Bool := c.all pyIsSpace

/-- The domain key both strategies use (`persistence.py:91-93, 263-265`):
`extract_domain(url)`, falling back to `"unknown"`. -/
def domainOf (url : Str) : Str :=
  let d := extract_domain url
  if d = [] then chars "unknown" else d

/-- Lookup in an insertion-ordered association list (Python dict read). -/
def alookup {α : Type} (k : Str) : List (Str × α) → Option α
  | [] => none
  | (k1, v) :: rest => if k1 = k then some v else alookup k rest

/-- Python dict store.  When the key is present every binding for it is
replaced (Python dicts have unique keys, so on duplicate-free key lists
this is exactly dict assignment); otherwise the binding is appended,
preserving insertion order. -/
def astore {α : Type} (k : Str) (v : α) (l : List (Str × α)) : List (Str × α) :=
  if k ∈ l.map Prod.fst then
    l.map (fun kv => if kv.1 = k then (kv.1, v) else kv)
  else l ++ [(k, v)]

/-- State of `FilePerDomainStrategy` (`persistence.py:176-191`) plus the
modelled filesystem and a count of completed domain-file writes. -/
structure FPDState where
  output_dir : Str
  buffer_size : Nat
  flush_size : Nat
  buffers : List (Str × List BufItem)
  buffer_sizes : List (Str × Nat)
  saved_files : List SavedDomainFileInfo
  files : List (Str × Str)
  writeCount : Nat
deriving DecidableEq, Repr

/-- `FilePerDomainStrategy.__init__` (`persistence.py:176-191`): the
byte threshold is `flush_size_mb * 1024 * 1024`. -/
def initFPD (output_dir : Str) (buffer_size : Nat := 100) (flush_size_mb : Nat := 10) : FPDState :=
  ⟨output_dir, buffer_size, flush_size_mb * 1024 * 1024, [], [], [], [], 0⟩

/-- `self.buffers[domain]` (defaultdict read). -/
def getBuf (st : FPDState) (d : Str) : List BufItem := (alookup d st.buffers).getD []

/-- `self.buffer_sizes[domain]` (defaultdict read). -/
def getBufSize (st : FPDState) (d : Str) : Nat := (alookup d st.buffer_sizes).getD 0

/-- `FilePerDomainStrategy._should_flush` (`persistence.py:193-198`). -/
def should_flush (st : FPDState) (d : Str) : Bool :=
  decide ((getBuf st d).length ≥ st.buffer_size) || decide (getBufSize st d ≥ st.flush_size)

/-- `str(self.output_dir / f"{domain}.md")` (`persistence.py:214`), for an
`output_dir` given in normalized form (no trailing slash). -/
def domPath (st : FPDState) (d : Str) : Str := st.output_dir ++ '/' :: (d ++ chars ".md")

/-- The content `_flush_domain` writes (`persistence.py:218-224`): the
buffered items in insertion order, each as a heading line `# <url>`, a
blank line and the content, separated by a literal delimiter. -/
def renderBuffer (items : List BufItem) : Str :=
  joinSep (chars "\n\n---\n\n")
    (items.map fun it => chars "# " ++ it.url ++ chars "\n\n" ++ it.content)

/-- `FilePerDomainStrategy._flush_domain` (`persistence.py:200-246`).
Empty buffer: early return `""`.  `fail = true`: the write raises inside
the `try`, the `except` logs and returns `""`; the buffer, the byte
counter and the record list are exactly as before.  Otherwise the domain
file is opened in `'w'` (overwrite) mode and written whole, a
`SavedDomainFileInfo` for this batch is appended, and the buffer and byte
counter are reset. -/
def flush_domain (fail : Bool) (st : FPDState) (d : Str) : FPDState × Str :=
  if getBuf st d = [] then (st, [])
  else if fail then (st, [])
  else
    let batch := getBuf st d
    let path := domPath st d
    let total := (batch.map (fun it => it.content.length)).sum
    ({ st with
        files := astore path (renderBuffer batch) st.files
        writeCount := st.writeCount + 1
        saved_files := st.saved_files ++ [⟨d, path, batch.length, total, batch.map (·.url)⟩]
        buffers := astore d [] st.buffers
        buffer_sizes := astore d 0 st.buffer_sizes }, path)

/-- `FilePerDomainStrategy.save` (`persistence.py:248-283`): blank content
is a no-op returning `""`; otherwise the item is buffered, the byte counter
grows by `len(content)`, the domain is flushed synchronously when a
threshold is reached, and the expected final path is returned
unconditionally. -/
def fpd_save (fail : Bool) (st : FPDState) (url content : Str) : FPDState × Str :=
  if pyBlank content then (st, [])
  else
    let d := domainOf url
    let st1 := { st with
        buffers := astore d (getBuf st d ++ [⟨url, content⟩]) st.buffers
        buffer_sizes := astore d (getBufSize st d + content.length) st.buffer_sizes }
    let st2 := if should_flush st1 d then (flush_domain fail st1 d).1 else st1
    (st2, domPath st d)

/-- `FilePerDomainStrategy.finalize` (`persistence.py:285-293`): for each
domain in the snapshot `list(self.buffers.keys())`, flush it when its
buffer is non-empty. -/
def fpd_finalize (fail : Bool) (st : FPDState) : FPDState :=
  (st.buffers.map Prod.fst).foldl
    (fun s d => if getBuf s d = [] then s else (flush_domain fail s d).1) st

/-- Characters `utils.sanitize_filename` keeps: `[a-zA-Z0-9\-_.]`. -/
def isFilenameChar (c : Char) : Bool :=
  c.isAlphanum || c == '-' || c == '_' || c == '.'

/-- `re.sub(r'_+', '_', s)`: collapse runs of underscores (the flag records
whether we are inside a run). -/
def collapseU : Bool → Str → Str
  | _, [] => []
  | inRun, c :: rest =>
    if c = '_' then
      (if inRun then collapseU true rest else '_' :: collapseU true rest)
    else c :: collapseU false rest

/-- Python `s.strip('_')`. -/
def stripUnderscores (s : Str) : Str :=
  ((s.dropWhile (· = '_')).reverse.dropWhile (· = '_')).reverse

/-- Python `s.rsplit('.', 1)`: split at the last dot, when present. -/
def rsplitDot (s : Str) : Str × Option Str :=
  match splitFirst '.' s.reverse with
  | (revExt, some revName) => (revName.reverse, some revExt.reverse)
  | (_, none) => (s, none)

/-- `utils.sanitize_filename` (`utils.py:190-223`).  (The only caller passes
the default `max_length = 120`, so the `Nat` truncation in
`max_length - len(ext) - 1` matches Python.) -/
def sanitize_filename (filename : Str) (max_length : Nat := 120) : Str :=
  let s := filename.map (fun c => if isFilenameChar c then c else '_')
  let s := collapseU false s
  let s := stripUnderscores s
  let s :=
    if s.length > max_length then
      match rsplitDot s with
      | (name, some ext) =>
        if ext.length < 10 then name.take (max_length - ext.length - 1) ++ '.' :: ext
        else s.take max_length
      | (_, none) => s.take max_length
    else s
  if s = [] then chars "unnamed" else s

/-- `FolderPerDomainStrategy._build_file_path` (`persistence.py:80-124`).
`create_url_hash` is MD5 from the external `hashlib`, modelled by the
parameter `hash8` standing for `create_url_hash(url)[:8]`. -/
def build_file_path (hash8 : Str → Str) (output_dir : Str) (url : Str) (ext : Str) : Str :=
  let domain := domainOf url
  let url_path := (urlsplit url).path
  let filename :=
    if url_path = [] ∨ url_path = ['/'] then chars "index"
    else (url_path.dropWhile (· = '/')).map (fun c => if c = '/' then '_' else c)
  let filename := sanitize_filename filename 120
  let filename := if hasSuffix ext filename then filename else filename ++ ext
  let filename :=
    if filename.length > 120 then (filename.take (120 - 33)) ++ '_' :: (hash8 url ++ ext)
    else filename
  output_dir ++ '/' :: (domain ++ '/' :: filename)

/-- State of `FolderPerDomainStrategy` (`persistence.py:66-78`) plus the
modelled filesystem and write count. -/
structure FolderState where
  output_dir : Str
  saved_files : List SavedFileInfo
  files : List (Str × Str)
  writeCount : Nat
deriving DecidableEq, Repr

/-- `FolderPerDomainStrategy.save` (`persistence.py:126-162`): blank content
returns `""` untouched; `fail = true` models the write raising inside the
`try`, caught by the `except` which returns `""` with the record list
untouched; on success the file is overwritten whole and a `SavedFileInfo`
is appended. -/
def folder_save (hash8 : Str → Str) (fail : Bool) (st : FolderState) (url content : Str) :
    FolderState × Str :=
  if pyBlank content then (st, [])
  else
    let path := build_file_path hash8 st.output_dir url (chars ".md")
    if fail then (st, [])
    else
      ({ st with
          files := astore path content st.files
          saved_files := st.saved_files ++ [⟨url, path, content.length⟩]
          writeCount := st.writeCount + 1 }, path)

/-- `FolderPerDomainStrategy.finalize` (`persistence.py:164-166`): no-op. -/
def folder_finalize (st : FolderState) : FolderState := st

/-! ### `docs_crawler.py` (the v1 recursive crawl orchestrator)

Two complementary models of `crawl_parallel`:

* an interleaving machine over the atomic blocks of `process_url`
  (`stepTask`/`runSched`), faithful to asyncio's cooperative scheduling:
  code between `await` points runs atomically; `async with semaphore`
  suspends only when no permit is free, and a resumed waiter continues
  after the acquire without re-checking `VISITED_URLS`;
* a sequential recursion (`crawl_parallel`) capturing which pages a run
  can fetch and with what discovery distance — the depth budget flows
  through the call structure, so this set-level bound is independent of
  task interleaving. -/

/-- `docs_crawler.cleanup_url` (`docs_crawler.py:91-97`, the v1 version):
drop everything from the first `#`, then one trailing `/`. -/
def cleanup_url_v1 (url : Str) : Str := rstripOne (splitFirst '#' url).1

/-- Where one `process_url` task stands between its `await` points
(`docs_crawler.py:214-246`). -/
inductive Phase
  | ready
  | waiting (u : Str)
  | fetching (u : Str)
  | done
deriving DecidableEq, Repr

/-- One spawned `process_url(url)` task. -/
structure TaskM where
  url : Str
  phase : Phase
deriving DecidableEq, Repr

/-- Shared state of the run: the spawned tasks, the global `VISITED_URLS`,
the free permits of the shared semaphore, and the list of URLs handed to
the Page Fetcher (`crawler.arun`), in call order. -/
structure MachineState where
  tasks : List TaskM
  visited : List Str
  semAvail : Nat
  fetchLog : List Str
deriving DecidableEq, Repr

/-- One atomic scheduler step, running task `i` up to its next `await`
(`docs_crawler.py:214-246`, page branch, empty skip regex):

* `ready`: runs `cleanup_url` and the `VISITED_URLS.get` check (line 217);
  a visited URL finishes the task.  With a free permit, `semaphore.acquire`
  does not suspend, so `VISITED_URLS[url] = True` (line 229) and the call
  into `crawler.arun` (line 237) happen in the same block; with no free
  permit the task suspends inside the acquire.
* `waiting`: resumed after the acquire, the task marks the URL visited and
  starts the fetch — the line-217 check is NOT re-executed.
* `fetching`: the fetch returns and the `async with` releases the permit
  (child dispatch omitted: the schedules considered spawn no children). -/
def stepTask (st : MachineState) (i : Nat) : MachineState :=
  match st.tasks[i]? with
  | none => st
  | some t =>
    match t.phase with
    | .ready =>
      let u := cleanup_url_v1 t.url
      if u ∈ st.visited then
        { st with tasks := st.tasks.set i { t with phase := .done } }
      else if st.semAvail > 0 then
        { st with
            tasks := st.tasks.set i { t with phase := .fetching u }
            semAvail := st.semAvail - 1
            visited := st.visited ++ [u]
            fetchLog := st.fetchLog ++ [u] }
      else { st with tasks := st.tasks.set i { t with phase := .waiting u } }
    | .waiting u =>
      if st.semAvail > 0 then
        { st with
            tasks := st.tasks.set i { t with phase := .fetching u }
            semAvail := st.semAvail - 1
            visited := st.visited ++ [u]
            fetchLog := st.fetchLog ++ [u] }
      else st
    | .fetching _ =>
      { st with
          tasks := st.tasks.set i { t with phase := .done }
          semAvail := st.semAvail + 1 }
    | .done => st

/-- Runs a schedule (a list of task indices) from a state. -/
def runSched (st : MachineState) (sched : List Nat) : MachineState :=
  sched.foldl stepTask st

/-- The external Page Fetcher collaborator: for each (cleaned) URL, whether
`crawler.arun` succeeds, and the `href`s of `result.links["internal"]` and
`result.links["external"]`. -/
structure CrawlEnv where
  success : Str → Bool
  internal : Str → List Str
  external : Str → List Str

/-- `docs_crawler.ScrapItem` (`docs_crawler.py:20-25`), the regex
`paths_to_skip_regex` abstracted as an optional predicate (`none` models
`None` or the empty pattern, for which `process_url` skips the regex
check). -/
structure ScrapItemV1 where
  url : Str
  depth : Int
  allow_external_links : Bool
  skip : Option (Str → Bool)

/-- The early return `scrap_item is not None and scrap_item.depth < 1`
(`docs_crawler.py:208-209`). -/
def itemBlocked : Option ScrapItemV1 → Bool
  | none => false
  | some it => decide (it.depth < 1)

/-- The skip-regex check of `process_url` (`docs_crawler.py:222-225`). -/
def skipHit (item : Option ScrapItemV1) (u : Str) : Bool :=
  match item with
  | none => false
  | some it =>
    match it.skip with
    | none => false
    | some p => p u

/-- Python `list(set(...))` keeping first occurrences (the set iteration
order is arbitrary; every property proved about the crawl is
order-insensitive). -/
def dedupAux (seen : List Str) : List Str → List Str
  | [] => []
  | x :: xs => if x ∈ seen then dedupAux seen xs else x :: dedupAux (x :: seen) xs

/-- Deduplicate, keeping first occurrences. -/
def dedupKeepFirst (l : List Str) : List Str := dedupAux [] l

/-- Visited set and fetch log of a (sequentialized) run. -/
structure CrawlSt where
  visited : List Str
  fetchLog : List Str
deriving DecidableEq, Repr

/-- The body of v1 `process_url` for one URL (`docs_crawler.py:214-277`),
sequentialized (child batches dispatched via `recur` in place of
`asyncio.create_task`): clean the URL, skip if visited or matching the
skip regex, else mark visited and fetch; on a successful page fetch with a
live item, collect internal (and, when allowed, external) links, clean
them (line 261), drop the ones already visited, deduplicate, and dispatch
them with depth − 1 (`None` when the decremented depth falls below 1,
line 267-268). -/
def processOne (env : CrawlEnv) (recur : Option ScrapItemV1 → List Str → CrawlSt → CrawlSt)
    (item : Option ScrapItemV1) (st : CrawlSt) (url : Str) : CrawlSt :=
  let u := cleanup_url_v1 url
  if u ∈ st.visited then st
  else if skipHit item u then st
  else
    let st1 : CrawlSt := ⟨st.visited ++ [u], st.fetchLog ++ [u]⟩
    match item with
    | none => st1
    | some it =>
      if env.success u then
        let raw := env.internal u ++ (if it.allow_external_links then env.external u else [])
        let fresh := dedupKeepFirst ((raw.map cleanup_url_v1).filter (fun l => l ∉ st1.visited))
        let child : Option ScrapItemV1 :=
          if it.depth - 1 < 1 then none
          else some { it with url := u, depth := it.depth - 1 }
        if fresh = [] then st1 else recur child fresh st1
      else st1

/-- Processes a batch of URLs in order, threading the state. -/
def processList (env : CrawlEnv) (recur : Option ScrapItemV1 → List Str → CrawlSt → CrawlSt)
    (item : Option ScrapItemV1) : List Str → CrawlSt → CrawlSt
  | [], st => st
  | url :: rest, st => processList env recur item rest (processOne env recur item st url)

/-- Fuel needed by a batch: the recursion depth left in the item. -/
def itemFuel : Option ScrapItemV1 → Nat
  | none => 0
  | some it => it.depth.toNat

/-- Fuel-indexed unfolding of the `crawl_parallel` recursion.  A child batch
of an item of depth `d ≥ 1` carries fuel `(d-1).toNat = fuel - 1` for a
`some` child and needs none for a `None` child (which never dispatches), so
starting from `itemFuel item` the fuel-exhausted branch is never consulted
with a live item: the two cases differ only in the `recur` argument, which
a `None`/blocked item ignores. -/
def crawlGo (env : CrawlEnv) : Nat → Option ScrapItemV1 → List Str → CrawlSt → CrawlSt
  | 0, item, urls, st =>
    if itemBlocked item then st
    else processList env (fun _ _ s => s) item urls st
  | fuel + 1, item, urls, st =>
    if itemBlocked item then st
    else processList env (crawlGo env fuel) item urls st

/-- `docs_crawler.crawl_parallel` (`docs_crawler.py:203-289`),
sequentialized: returns early on `depth < 1` (line 208-209), else
processes every URL of the batch (an empty batch is a no-op, line
205-206). -/
def crawl_parallel (env : CrawlEnv) (item : Option ScrapItemV1) (urls : List Str)
    (st : CrawlSt) : CrawlSt :=
  crawlGo env (itemFuel item) item urls st

/-- The pages one successful fetch of `u` can lead the crawler to: each
collected link is cleaned once when deduplicated (`docs_crawler.py:261`)
and once more by the child `process_url` (`docs_crawler.py:215`). -/
def discovers (env : CrawlEnv) (ae : Bool) (u : Str) : List Str :=
  if env.success u then
    (env.internal u ++ if ae then env.external u else []).map
      (fun l => cleanup_url_v1 (cleanup_url_v1 l))
  else []

/-- One expansion step of the discovery relation. -/
def grow (env : CrawlEnv) (ae : Bool) (B : List Str) : List Str :=
  B ++ B.flatMap (discovers env ae)

/-- `n`-fold expansion of a seed set. -/
def growIter (env : CrawlEnv) (ae : Bool) (B : List Str) : Nat → List Str
  | 0 => B
  | n + 1 => growIter env ae (grow env ae B) n

/-- The (cleaned) pages at discovery distance at most `n` from the cleaned
root — the formal counterpart of the claim's "discovery distance from the
root URL does not exceed n". -/
def ballList (env : CrawlEnv) (ae : Bool) (root : Str) (n : Nat) : List Str :=
  growIter env ae [root] n

/-! ### Link eligibility (spec §4.3) -/

/-- Modelled from the spec: the repository has no single function computing
the §4.3 link-eligibility decision — `base.build_filter_chain`
(`base.py:102-152`) builds regex `URLPatternFilter`s whose evaluation lives
in the external `crawl4ai` package, and `utils.is_same_domain` /
`utils.is_subdomain` implement the domain-scope rules but have no caller in
the repository.  Following §4.3 rules 1-4, grounded in the repository's own
domain helpers: the link must survive the skip predicate (rule 1), and must
be in domain scope (rule 3: hostname equality via `is_same_domain` when
`includeSubdomains` is false; equality or dot-suffix subdomain via
`is_subdomain` when it is true), unless `includeExternal` admits
out-of-scope hosts (rule 4). -/
def isEligible (link root : Str) (includeSubdomains includeExternal : Bool)
    (skip : Str → Bool) : Bool :=
  if skip link then false
  else
    let inScope :=
      if includeSubdomains then is_subdomain link root else is_same_domain link root
    inScope || includeExternal

/-! ## Theorems -/

/-! ### Association list helpers -/

theorem alookup_nil {α : Type} (k : Str) : alookup (α := α) k [] = none := rfl

theorem alookup_cons {α : Type} (k k1 : Str) (v1 : α) (rest : List (Str × α)) :
    alookup k ((k1, v1) :: rest) = if k1 = k then some v1 else alookup k rest := rfl

theorem alookup_replace_self {α : Type} (k : Str) (v : α) (l : List (Str × α))
    (hmem : k ∈ l.map Prod.fst) :
    alookup k (l.map (fun kv => if kv.1 = k then (kv.1, v) else kv)) = some v := by
  induction l with
  | nil => simp at hmem
  | cons kv rest ih =>
    obtain ⟨k1, v1⟩ := kv
    rw [List.map_cons]
    show alookup k ((if k1 = k then (k1, v) else (k1, v1)) ::
      rest.map (fun kv => if kv.1 = k then (kv.1, v) else kv)) = some v
    by_cases hk : k1 = k
    · rw [if_pos hk, alookup_cons, if_pos hk]
    · rw [if_neg hk, alookup_cons, if_neg hk]
      apply ih
      simp only [List.map_cons, List.mem_cons] at hmem
      rcases hmem with h | h
      · exact absurd h.symm hk
      · exact h

theorem alookup_append {α : Type} (k : Str) (l1 l2 : List (Str × α)) :
    alookup k (l1 ++ l2) =
      match alookup k l1 with
      | some v => some v
      | none => alookup k l2 := by
  induction l1 with
  | nil => rfl
  | cons kv rest ih =>
    obtain ⟨k1, v1⟩ := kv
    rw [List.cons_append, alookup_cons, alookup_cons]
    by_cases hk : k1 = k
    · rw [if_pos hk, if_pos hk]
    · rw [if_neg hk, if_neg hk, ih]

theorem alookup_append_right_of_none {α : Type} (k : Str) (l1 l2 : List (Str × α))
    (h : alookup k l1 = none) : alookup k (l1 ++ l2) = alookup k l2 := by
  rw [alookup_append, h]

theorem alookup_none_of_not_mem {α : Type} (k : Str) (l : List (Str × α))
    (h : k ∉ l.map Prod.fst) : alookup k l = none := by
  induction l with
  | nil => rfl
  | cons kv rest ih =>
    obtain ⟨k1, v1⟩ := kv
    simp only [List.map_cons, List.mem_cons, not_or] at h
    have hk : k1 ≠ k := fun he => h.1 he.symm
    rw [alookup_cons, if_neg hk]
    exact ih h.2

theorem alookup_astore_self {α : Type} (k : Str) (v : α) (l : List (Str × α)) :
    alookup k (astore k v l) = some v := by
  unfold astore
  by_cases hmem : k ∈ l.map Prod.fst
  · rw [if_pos hmem]
    exact alookup_replace_self k v l hmem
  · rw [if_neg hmem]
    rw [alookup_append_right_of_none k l _ (alookup_none_of_not_mem k l hmem)]
    rw [alookup_cons, if_pos rfl]

theorem alookup_replace_other {α : Type} (k k2 : Str) (v : α) (l : List (Str × α))
    (hne : k2 ≠ k) :
    alookup k2 (l.map (fun kv => if kv.1 = k then (kv.1, v) else kv)) = alookup k2 l := by
  induction l with
  | nil => rfl
  | cons kv rest ih =>
    obtain ⟨k1, v1⟩ := kv
    rw [List.map_cons]
    show alookup k2 ((if k1 = k then (k1, v) else (k1, v1)) ::
      rest.map (fun kv => if kv.1 = k then (kv.1, v) else kv)) = _
    by_cases hk : k1 = k
    · have hne2 : k1 ≠ k2 := fun h => hne (h.symm.trans hk)
      rw [if_pos hk, alookup_cons, if_neg hne2, alookup_cons, if_neg hne2]
      exact ih
    · rw [if_neg hk, alookup_cons, alookup_cons]
      exact if_congr Iff.rfl rfl ih

theorem alookup_astore_other {α : Type} (k k2 : Str) (v : α) (l : List (Str × α))
    (hne : k2 ≠ k) : alookup k2 (astore k v l) = alookup k2 l := by
  unfold astore
  by_cases hmem : k ∈ l.map Prod.fst
  · rw [if_pos hmem]
    exact alookup_replace_other k k2 v l hne
  · rw [if_neg hmem, alookup_append]
    cases hcase : alookup k2 l with
    | some v2 => rfl
    | none => rw [alookup_cons, if_neg (fun h => hne h.symm), alookup_nil]

theorem replace_map_fst {α : Type} (k : Str) (v : α) (l : List (Str × α)) :
    (l.map (fun kv => if kv.1 = k then (kv.1, v) else kv)).map Prod.fst = l.map Prod.fst := by
  induction l with
  | nil => rfl
  | cons kv rest ih =>
    obtain ⟨k1, v1⟩ := kv
    rw [List.map_cons]
    show Prod.fst (if k1 = k then (k1, v) else (k1, v1)) ::
      (rest.map (fun kv => if kv.1 = k then (kv.1, v) else kv)).map Prod.fst = _
    by_cases hk : k1 = k
    · rw [if_pos hk, ih, List.map_cons]
    · rw [if_neg hk, ih, List.map_cons]

theorem astore_map_fst_of_mem {α : Type} (k : Str) (v : α) (l : List (Str × α))
    (h : k ∈ l.map Prod.fst) : (astore k v l).map Prod.fst = l.map Prod.fst := by
  unfold astore
  rw [if_pos h]
  exact replace_map_fst k v l

theorem mem_map_fst_of_alookup_some {α : Type} (k : Str) (v : α) (l : List (Str × α))
    (h : alookup k l = some v) : k ∈ l.map Prod.fst := by
  induction l with
  | nil => exact Option.noConfusion (alookup_nil k ▸ h)
  | cons kv rest ih =>
    obtain ⟨k1, v1⟩ := kv
    rw [alookup_cons] at h
    by_cases hk : k1 = k
    · simp only [List.map_cons, List.mem_cons]
      exact Or.inl hk.symm
    · rw [if_neg hk] at h
      simp only [List.map_cons, List.mem_cons]
      exact Or.inr (ih h)

theorem mem_map_fst_of_getBuf_ne_nil (st : FPDState) (d : Str)
    (h : getBuf st d ≠ []) : d ∈ st.buffers.map Prod.fst := by
  unfold getBuf at h
  cases hcase : alookup d st.buffers with
  | none => rw [hcase] at h; exact absurd rfl h
  | some v => exact mem_map_fst_of_alookup_some d v _ hcase

/-! ### Flush and finalize lemmas -/

theorem flush_domain_fail (st : FPDState) (d : Str) :
    flush_domain true st d = (st, []) := by
  unfold flush_domain
  split
  · rfl
  · rfl

theorem getBuf_flush_self (st : FPDState) (d : Str) :
    getBuf ((flush_domain false st d).1) d = [] := by
  unfold flush_domain
  by_cases hb : getBuf st d = []
  · rw [if_pos hb]
    exact hb
  · rw [if_neg hb, if_neg Bool.false_ne_true]
    unfold getBuf
    rw [alookup_astore_self]
    rfl

theorem getBuf_flush_other (fail : Bool) (st : FPDState) (d d2 : Str) (hne : d2 ≠ d) :
    getBuf ((flush_domain fail st d).1) d2 = getBuf st d2 := by
  unfold flush_domain
  by_cases hb : getBuf st d = []
  · rw [if_pos hb]
  · rw [if_neg hb]
    cases fail with
    | true => rfl
    | false =>
      rw [if_neg Bool.false_ne_true]
      unfold getBuf
      rw [alookup_astore_other d d2 _ _ hne]

theorem flush_preserves_keys (fail : Bool) (st : FPDState) (d : Str) :
    ((flush_domain fail st d).1).buffers.map Prod.fst = st.buffers.map Prod.fst := by
  unfold flush_domain
  by_cases hb : getBuf st d = []
  · rw [if_pos hb]
  · rw [if_neg hb]
    cases fail with
    | true => rfl
    | false =>
      rw [if_neg Bool.false_ne_true]
      exact astore_map_fst_of_mem d [] _ (mem_map_fst_of_getBuf_ne_nil st d hb)

theorem finalize_go_clears (keys : List Str) :
    ∀ (st : FPDState) (d : Str), d ∈ keys ∨ getBuf st d = [] →
      getBuf (keys.foldl
        (fun s k => if getBuf s k = [] then s else (flush_domain false s k).1) st) d = [] := by
  induction keys with
  | nil =>
    intro st d h
    rcases h with h | h
    · exact absurd h (List.not_mem_nil d)
    · exact h
  | cons k ks ih =>
    intro st d h
    rw [List.foldl_cons]
    apply ih
    by_cases hdk : d = k
    · subst hdk
      right
      by_cases hb : getBuf st d = []
      · rw [if_pos hb]
        exact hb
      · rw [if_neg hb]
        exact getBuf_flush_self st d
    · rcases h with h | h
      · rcases List.mem_cons.mp h with h1 | h1
        · exact absurd h1 hdk
        · exact Or.inl h1
      · right
        by_cases hb : getBuf st k = []
        · rw [if_pos hb]
          exact h
        · rw [if_neg hb, getBuf_flush_other false st k d hdk]
          exact h

theorem fpd_finalize_clears (st : FPDState) (d : Str) :
    getBuf (fpd_finalize false st) d = [] := by
  unfold fpd_finalize
  apply finalize_go_clears
  by_cases hm : d ∈ st.buffers.map Prod.fst
  · exact Or.inl hm
  · right
    unfold getBuf
    rw [alookup_none_of_not_mem d _ hm]
    rfl

theorem finalize_go_id (b : Bool) (keys : List Str) (st : FPDState)
    (h : ∀ d, getBuf st d = []) :
    keys.foldl (fun s k => if getBuf s k = [] then s else (flush_domain b s k).1) st = st := by
  induction keys with
  | nil => rfl
  | cons k ks ih =>
    rw [List.foldl_cons, if_pos (h k)]
    exact ih

theorem fpd_finalize_id (b : Bool) (st : FPDState) (h : ∀ d, getBuf st d = []) :
    fpd_finalize b st = st := by
  unfold fpd_finalize
  exact finalize_go_id b _ st h

/-! ### The claims -/

/-- C5: flush failure atomicity.  If the file write raises during
`_flush_domain` (`fail = true`), the domain's buffered item list, its byte
counter and the `SavedDomainFileInfo` record list are exactly as before the
flush attempt, and the call returns `""` normally instead of propagating
the exception. -/
theorem C5_flush_failure_preserves_buffer (st : FPDState) (d : Str) :
    (flush_domain true st d).1.buffers = st.buffers ∧
    (flush_domain true st d).1.buffer_sizes = st.buffer_sizes ∧
    (flush_domain true st d).1.saved_files = st.saved_files ∧
    (flush_domain true st d).2 = [] := by
  rw [flush_domain_fail st d]
  exact ⟨rfl, rfl, rfl, rfl⟩

/-- C6: finalize completeness and idempotence.  After any state (in
particular after any finite sequence of saves), `finalize` leaves every
domain's buffer empty, and a second `finalize` (with or without write
failures — it attempts no write) returns the state unchanged: no new
records, no file writes, no exception. -/
theorem C6_finalize_complete_idempotent (st : FPDState) (b : Bool) :
    (∀ d, getBuf (fpd_finalize false st) d = []) ∧
    fpd_finalize b (fpd_finalize false st) = fpd_finalize false st := by
  refine ⟨fpd_finalize_clears st, ?_⟩
  exact fpd_finalize_id b _ (fpd_finalize_clears st)

/-- C7: every successful flush opens `<domain>.md` in overwrite mode, so
immediately afterwards the file contains exactly this batch — heading plus
content per item, delimiter-separated, in insertion order — and nothing
from any earlier flush; the flush returns the file path. -/
theorem C7_flush_overwrites_file (st : FPDState) (d : Str) (h : getBuf st d ≠ []) :
    alookup (domPath st d) ((flush_domain false st d).1).files
      = some (renderBuffer (getBuf st d)) ∧
    (flush_domain false st d).2 = domPath st d := by
  unfold flush_domain
  rw [if_neg h, if_neg Bool.false_ne_true]
  exact ⟨alookup_astore_self _ _ _, rfl⟩

/-- Witness for C7 at a concrete one-item buffer. -/
theorem C7_flush_overwrites_file_witness :
    getBuf ⟨chars "out", 2, 100, [(chars "d.com", [⟨chars "https://d.com/a", chars "A"⟩])],
        [(chars "d.com", 1)], [], [], 0⟩ (chars "d.com") ≠ [] ∧
    alookup (domPath ⟨chars "out", 2, 100,
          [(chars "d.com", [⟨chars "https://d.com/a", chars "A"⟩])],
          [(chars "d.com", 1)], [], [], 0⟩ (chars "d.com"))
      ((flush_domain false ⟨chars "out", 2, 100,
          [(chars "d.com", [⟨chars "https://d.com/a", chars "A"⟩])],
          [(chars "d.com", 1)], [], [], 0⟩ (chars "d.com")).1).files
      = some (chars "# https://d.com/a\n\nA") := by
  have hne : getBuf ⟨chars "out", 2, 100,
      [(chars "d.com", [⟨chars "https://d.com/a", chars "A"⟩])],
      [(chars "d.com", 1)], [], [], 0⟩ (chars "d.com") ≠ [] := by decide
  refine ⟨hne, ?_⟩
  rw [(C7_flush_overwrites_file _ _ hne).1]
  rfl

/-- C1 (the claim fails on the code): with a contended semaphore
(capacity 1), three `process_url` tasks — one for `http://w.com` holding
the permit, two for `http://u.com` discovered via independent paths — and
the schedule start-w, start-u, start-u, finish-w, resume-u, finish-u,
resume-u, the Page Fetcher is invoked TWICE for the same normalized URL:
both `u` tasks pass the `VISITED_URLS` check at `docs_crawler.py:217`
before either reaches the mark at line 229, because the semaphore acquire
suspends between them.  The check and the insertion do not behave as one
atomic claim. -/
theorem C1_double_fetch_of_schedule :
    (runSched
      ⟨[⟨chars "http://w.com", .ready⟩, ⟨chars "http://u.com", .ready⟩,
        ⟨chars "http://u.com", .ready⟩], [], 1, []⟩
      [0, 1, 2, 0, 1, 1, 2]).fetchLog.count (chars "http://u.com") = 2 := by decide

/-- C9 (the claim fails on the code): the URL normalizer raises instead of
never raising — `for key, value in parsed.query.split('&')` tuple-unpacks
the three-character part `a=1`, a `ValueError`, which nothing catches. -/
theorem C9_cleanup_url_raises :
    cleanup_url (chars "https://x.com/?a=1") true = .error .valueError := rfl

/-- C10 counterexample: with `buffer_size = 1` the first save triggers a
flush; when that write fails (`fail = true`), `FilePerDomainStrategy.save`
still returns the expected domain path `out/d.com.md`, not the empty path
the claim promises. -/
theorem C10_save_counterexample :
    (fpd_save true (initFPD (chars "out") 1 1) (chars "https://d.com/x") (chars "hi")).2
        = chars "out/d.com.md" ∧
    chars "out/d.com.md" ≠ ([] : Str) := ⟨rfl, by decide⟩

/-- C8 counterexample: with root `https://a.example.com`,
`includeSubdomains = true` and `includeExternal = false`, the link
`https://b.example.com/x` is REJECTED (the claim says accepted):
`b.example.com` is neither equal to nor a dot-suffix subdomain of
`a.example.com`, and the spec's own rule 3 agrees with the code here. -/
theorem C8_filter_counterexample :
    isEligible (chars "https://b.example.com/x") (chars "https://a.example.com")
      true false (fun _ => false) = false := rfl

/-- C8 amended: under root `https://a.example.com`, a link to
`https://b.example.com/x` is rejected whatever `includeSubdomains` is
(it is not a dot-suffix subdomain), while a genuine subdomain
`https://x.a.example.com/y` is accepted when `includeSubdomains = true`;
a link to `https://other.com/x` is rejected unless
`includeExternal = true`. -/
theorem C8_filter_amended :
    isEligible (chars "https://b.example.com/x") (chars "https://a.example.com")
      false false (fun _ => false) = false ∧
    isEligible (chars "https://b.example.com/x") (chars "https://a.example.com")
      true false (fun _ => false) = false ∧
    isEligible (chars "https://x.a.example.com/y") (chars "https://a.example.com")
      true false (fun _ => false) = true ∧
    isEligible (chars "https://other.com/x") (chars "https://a.example.com")
      false false (fun _ => false) = false ∧
    isEligible (chars "https://other.com/x") (chars "https://a.example.com")
      true false (fun _ => false) = false ∧
    isEligible (chars "https://other.com/x") (chars "https://a.example.com")
      false true (fun _ => false) = true :=
  ⟨rfl, rfl, rfl, rfl, rfl, rfl⟩

theorem fpd_save_blank (b : Bool) (st : FPDState) (u c : Str) (h : pyBlank c = true) :
    fpd_save b st u c = (st, []) := by
  unfold fpd_save
  rw [if_pos h]

theorem folder_save_blank (h8 : Str → Str) (b : Bool) (st : FolderState) (u c : Str)
    (h : pyBlank c = true) : folder_save h8 b st u c = (st, []) := by
  unfold folder_save
  rw [if_pos h]

theorem folder_save_fail (h8 : Str → Str) (st : FolderState) (u c : Str) :
    folder_save h8 true st u c = (st, []) := by
  unfold folder_save
  by_cases h : pyBlank c = true
  · rw [if_pos h]
  · rw [if_neg h]
    rfl

theorem fpd_save_fail_path (st : FPDState) (u c : Str) (h : pyBlank c = false) :
    (fpd_save true st u c).2 = domPath st (domainOf u) := by
  unfold fpd_save
  rw [if_neg (by simp [h])]

theorem fpd_save_fail_buffer (st : FPDState) (u c : Str) (h : pyBlank c = false) :
    getBuf (fpd_save true st u c).1 (domainOf u)
      = getBuf st (domainOf u) ++ [⟨u, c⟩] := by
  unfold fpd_save
  rw [if_neg (by simp [h])]
  simp only []
  by_cases hf : should_flush
      { st with
        buffers := astore (domainOf u) (getBuf st (domainOf u) ++ [⟨u, c⟩]) st.buffers
        buffer_sizes := astore (domainOf u) (getBufSize st (domainOf u) + c.length)
          st.buffer_sizes } (domainOf u)
  · rw [if_pos hf, flush_domain_fail]
    unfold getBuf
    rw [alookup_astore_self]
    rfl
  · rw [if_neg hf]
    unfold getBuf
    rw [alookup_astore_self]
    rfl

/-- C10 amended: in both strategies, a save with empty (or all-whitespace)
content is a no-op returning the empty path without touching any state;
`FolderPerDomainStrategy.save` catches a raising write and returns the
empty path with its record list untouched; `FilePerDomainStrategy.save`
(whose only write happens inside a threshold-triggered flush) catches the
failure and keeps the item buffered, but returns the expected domain path,
not the empty path. -/
theorem C10_save_amended :
    (∀ (b : Bool) (st : FPDState) (u c : Str), pyBlank c = true →
      fpd_save b st u c = (st, [])) ∧
    (∀ (h8 : Str → Str) (b : Bool) (st : FolderState) (u c : Str), pyBlank c = true →
      folder_save h8 b st u c = (st, [])) ∧
    (∀ (h8 : Str → Str) (st : FolderState) (u c : Str),
      folder_save h8 true st u c = (st, [])) ∧
    (∀ (st : FPDState) (u c : Str), pyBlank c = false →
      (fpd_save true st u c).2 = domPath st (domainOf u) ∧
      getBuf (fpd_save true st u c).1 (domainOf u)
        = getBuf st (domainOf u) ++ [⟨u, c⟩]) :=
  ⟨fpd_save_blank, folder_save_blank, folder_save_fail,
   fun st u c h => ⟨fpd_save_fail_path st u c h, fpd_save_fail_buffer st u c h⟩⟩

/-- Witness for C10 amended at concrete inputs: blank and failing saves in
both strategies behave as the amended claim states. -/
theorem C10_save_amended_witness :
    pyBlank (chars " ") = true ∧
    pyBlank (chars "hi") = false ∧
    fpd_save false (initFPD (chars "out")) (chars "https://d.com/x") (chars " ")
      = (initFPD (chars "out"), []) ∧
    folder_save (fun _ => chars "12345678") true ⟨chars "out", [], [], 0⟩
      (chars "https://d.com/x") (chars "hi") = (⟨chars "out", [], [], 0⟩, []) ∧
    (fpd_save true (initFPD (chars "out") 1 1) (chars "https://d.com/x") (chars "hi")).2
      = domPath (initFPD (chars "out") 1 1) (domainOf (chars "https://d.com/x")) ∧
    getBuf (fpd_save true (initFPD (chars "out") 1 1) (chars "https://d.com/x")
        (chars "hi")).1 (domainOf (chars "https://d.com/x"))
      = getBuf (initFPD (chars "out") 1 1) (domainOf (chars "https://d.com/x"))
        ++ [⟨chars "https://d.com/x", chars "hi"⟩] := by
  have hb : pyBlank (chars " ") = true := by decide
  have hnb : pyBlank (chars "hi") = false := by decide
  refine ⟨hb, hnb, C10_save_amended.1 false _ _ _ hb, C10_save_amended.2.2.1 _ _ _ _,
    (C10_save_amended.2.2.2 _ _ _ hnb).1, (C10_save_amended.2.2.2 _ _ _ hnb).2⟩

theorem astore_singleton_self {α : Type} (k : Str) (v w : α) :
    astore k v [(k, w)] = [(k, v)] := by
  unfold astore
  rw [if_pos (by simp)]
  rw [List.map_cons, List.map_nil, if_pos rfl]

theorem getBuf_singleton (out : Str) (bs fs : Nat) (d : Str) (l : List BufItem)
    (sz : List (Str × Nat)) (sv : List SavedDomainFileInfo) (fls : List (Str × Str))
    (wc : Nat) : getBuf ⟨out, bs, fs, [(d, l)], sz, sv, fls, wc⟩ d = l := by
  unfold getBuf
  rw [alookup_cons, if_pos rfl]
  rfl

theorem getBufSize_singleton (out : Str) (bs fs : Nat) (d : Str)
    (bufs : List (Str × List BufItem)) (n : Nat) (sv : List SavedDomainFileInfo)
    (fls : List (Str × Str)) (wc : Nat) :
    getBufSize ⟨out, bs, fs, bufs, [(d, n)], sv, fls, wc⟩ d = n := by
  unfold getBufSize
  rw [alookup_cons, if_pos rfl]
  rfl

/-- C3: with `buffer_size = 2`, three saves of non-blank content for one
domain produce exactly one automatic flush, synchronously inside the second
save (the write count is 1 when it returns and its buffer is already
empty), no flush in the first or third save, plus one flush at `finalize` —
two domain-file writes in total — and the first flush's
`SavedDomainFileInfo` lists exactly the first two URLs in save order. -/
theorem C3_flush_trigger (M : Nat) (out u1 u2 u3 c1 c2 c3 : Str)
    (h1 : pyBlank c1 = false) (h2 : pyBlank c2 = false) (h3 : pyBlank c3 = false)
    (hd2 : domainOf u2 = domainOf u1) (hd3 : domainOf u3 = domainOf u1)
    (hF1 : c1.length < M * 1024 * 1024)
    (hF12 : c1.length + c2.length < M * 1024 * 1024)
    (hF3 : c3.length < M * 1024 * 1024) :
    let s1 := (fpd_save false (initFPD out 2 M) u1 c1).1
    let s2 := (fpd_save false s1 u2 c2).1
    let s3 := (fpd_save false s2 u3 c3).1
    let s4 := fpd_finalize false s3
    s1.writeCount = 0 ∧ s2.writeCount = 1 ∧ getBuf s2 (domainOf u1) = [] ∧
    s2.saved_files.map SavedDomainFileInfo.urls = [[u1, u2]] ∧
    s3.writeCount = 1 ∧ s4.writeCount = 2 ∧
    s4.saved_files.map SavedDomainFileInfo.urls = [[u1, u2], [u3]] := by
  have hsf1 : should_flush ⟨out, 2, M * 1024 * 1024, [(domainOf u1, [⟨u1, c1⟩])],
      [(domainOf u1, 0 + c1.length)], [], [], 0⟩ (domainOf u1) = false := by
    unfold should_flush
    rw [getBuf_singleton, getBufSize_singleton]
    rw [decide_eq_false (show ¬([(⟨u1, c1⟩ : BufItem)].length ≥ 2) by simp),
        decide_eq_false (show ¬(0 + c1.length ≥ M * 1024 * 1024) by omega)]
    rfl
  have e1 : fpd_save false (initFPD out 2 M) u1 c1
      = (⟨out, 2, M * 1024 * 1024, [(domainOf u1, [⟨u1, c1⟩])],
          [(domainOf u1, 0 + c1.length)], [], [], 0⟩,
         domPath (initFPD out 2 M) (domainOf u1)) := by
    unfold fpd_save
    rw [if_neg (by simp [h1])]
    show (if should_flush ⟨out, 2, M * 1024 * 1024, [(domainOf u1, [⟨u1, c1⟩])],
        [(domainOf u1, 0 + c1.length)], [], [], 0⟩ (domainOf u1) = true then _ else _,
        domPath (initFPD out 2 M) (domainOf u1)) = _
    rw [hsf1, if_neg Bool.false_ne_true]
    rfl
  have hsf2 : should_flush ⟨out, 2, M * 1024 * 1024,
      [(domainOf u1, [⟨u1, c1⟩] ++ [⟨u2, c2⟩])],
      [(domainOf u1, 0 + c1.length + c2.length)], [], [], 0⟩ (domainOf u1) = true := by
    unfold should_flush
    rw [getBuf_singleton]
    dsimp only
    rw [decide_eq_true (show (([⟨u1, c1⟩] : List BufItem) ++ ([⟨u2, c2⟩] : List BufItem)).length ≥ 2 by simp)]
    rw [Bool.true_or]
  have hflush2 : flush_domain false ⟨out, 2, M * 1024 * 1024,
      [(domainOf u1, [⟨u1, c1⟩] ++ [⟨u2, c2⟩])],
      [(domainOf u1, 0 + c1.length + c2.length)], [], [], 0⟩ (domainOf u1)
      = (⟨out, 2, M * 1024 * 1024, [(domainOf u1, [])], [(domainOf u1, 0)],
          [⟨domainOf u1, domPath (initFPD out 2 M) (domainOf u1), 2,
            c1.length + c2.length, [u1, u2]⟩],
          [(domPath (initFPD out 2 M) (domainOf u1), renderBuffer [⟨u1, c1⟩, ⟨u2, c2⟩])], 1⟩,
         domPath (initFPD out 2 M) (domainOf u1)) := by
    unfold flush_domain
    rw [getBuf_singleton]
    rw [if_neg (show ¬(([⟨u1, c1⟩] : List BufItem) ++ ([⟨u2, c2⟩] : List BufItem) = []) by simp)]
    rw [if_neg Bool.false_ne_true]
    rw [astore_singleton_self, astore_singleton_self]
    rfl
  have e2 : fpd_save false ⟨out, 2, M * 1024 * 1024, [(domainOf u1, [⟨u1, c1⟩])],
      [(domainOf u1, 0 + c1.length)], [], [], 0⟩ u2 c2
      = (⟨out, 2, M * 1024 * 1024, [(domainOf u1, [])], [(domainOf u1, 0)],
          [⟨domainOf u1, domPath (initFPD out 2 M) (domainOf u1), 2,
            c1.length + c2.length, [u1, u2]⟩],
          [(domPath (initFPD out 2 M) (domainOf u1), renderBuffer [⟨u1, c1⟩, ⟨u2, c2⟩])], 1⟩,
         domPath (initFPD out 2 M) (domainOf u1)) := by
    unfold fpd_save
    rw [if_neg (by simp [h2])]
    simp only [hd2]
    rw [getBuf_singleton, getBufSize_singleton]
    rw [astore_singleton_self, astore_singleton_self]
    rw [hsf2, if_pos rfl, hflush2]
    rfl
  have hsf3 : should_flush ⟨out, 2, M * 1024 * 1024, [(domainOf u1, [] ++ [⟨u3, c3⟩])],
      [(domainOf u1, 0 + c3.length)],
      [⟨domainOf u1, domPath (initFPD out 2 M) (domainOf u1), 2,
        c1.length + c2.length, [u1, u2]⟩],
      [(domPath (initFPD out 2 M) (domainOf u1), renderBuffer [⟨u1, c1⟩, ⟨u2, c2⟩])], 1⟩
      (domainOf u1) = false := by
    unfold should_flush
    rw [getBuf_singleton, getBufSize_singleton]
    dsimp only
    rw [decide_eq_false (show ¬((([] : List BufItem) ++ ([⟨u3, c3⟩] : List BufItem)).length ≥ 2) by simp),
        decide_eq_false (show ¬(0 + c3.length ≥ M * 1024 * 1024) by omega)]
    rfl
  have e3 : fpd_save false ⟨out, 2, M * 1024 * 1024, [(domainOf u1, [])],
      [(domainOf u1, 0)],
      [⟨domainOf u1, domPath (initFPD out 2 M) (domainOf u1), 2,
        c1.length + c2.length, [u1, u2]⟩],
      [(domPath (initFPD out 2 M) (domainOf u1), renderBuffer [⟨u1, c1⟩, ⟨u2, c2⟩])], 1⟩ u3 c3
      = (⟨out, 2, M * 1024 * 1024, [(domainOf u1, [] ++ [⟨u3, c3⟩])],
          [(domainOf u1, 0 + c3.length)],
          [⟨domainOf u1, domPath (initFPD out 2 M) (domainOf u1), 2,
            c1.length + c2.length, [u1, u2]⟩],
          [(domPath (initFPD out 2 M) (domainOf u1), renderBuffer [⟨u1, c1⟩, ⟨u2, c2⟩])], 1⟩,
         domPath (initFPD out 2 M) (domainOf u1)) := by
    unfold fpd_save
    rw [if_neg (by simp [h3])]
    simp only [hd3]
    rw [getBuf_singleton, getBufSize_singleton]
    rw [astore_singleton_self, astore_singleton_self]
    rw [hsf3, if_neg Bool.false_ne_true]
    rfl
  have hflush4 : flush_domain false ⟨out, 2, M * 1024 * 1024,
      [(domainOf u1, [] ++ [⟨u3, c3⟩])], [(domainOf u1, 0 + c3.length)],
      [⟨domainOf u1, domPath (initFPD out 2 M) (domainOf u1), 2,
        c1.length + c2.length, [u1, u2]⟩],
      [(domPath (initFPD out 2 M) (domainOf u1), renderBuffer [⟨u1, c1⟩, ⟨u2, c2⟩])], 1⟩
      (domainOf u1)
      = (⟨out, 2, M * 1024 * 1024, [(domainOf u1, [])], [(domainOf u1, 0)],
          [⟨domainOf u1, domPath (initFPD out 2 M) (domainOf u1), 2,
            c1.length + c2.length, [u1, u2]⟩,
           ⟨domainOf u1, domPath (initFPD out 2 M) (domainOf u1), 1, c3.length, [u3]⟩],
          [(domPath (initFPD out 2 M) (domainOf u1), renderBuffer [⟨u3, c3⟩])], 2⟩,
         domPath (initFPD out 2 M) (domainOf u1)) := by
    unfold flush_domain
    rw [getBuf_singleton]
    rw [if_neg (show ¬(([] : List BufItem) ++ ([⟨u3, c3⟩] : List BufItem) = []) by simp)]
    rw [if_neg Bool.false_ne_true]
    rw [show domPath ⟨out, 2, M * 1024 * 1024, [(domainOf u1, [] ++ [⟨u3, c3⟩])],
        [(domainOf u1, 0 + c3.length)],
        [⟨domainOf u1, domPath (initFPD out 2 M) (domainOf u1), 2,
          c1.length + c2.length, [u1, u2]⟩],
        [(domPath (initFPD out 2 M) (domainOf u1), renderBuffer [⟨u1, c1⟩, ⟨u2, c2⟩])], 1⟩
        (domainOf u1) = domPath (initFPD out 2 M) (domainOf u1) from rfl]
    dsimp only
    rw [astore_singleton_self, astore_singleton_self, astore_singleton_self]
    rfl
  have e4 : fpd_finalize false ⟨out, 2, M * 1024 * 1024, [(domainOf u1, [] ++ [⟨u3, c3⟩])],
      [(domainOf u1, 0 + c3.length)],
      [⟨domainOf u1, domPath (initFPD out 2 M) (domainOf u1), 2,
        c1.length + c2.length, [u1, u2]⟩],
      [(domPath (initFPD out 2 M) (domainOf u1), renderBuffer [⟨u1, c1⟩, ⟨u2, c2⟩])], 1⟩
      = ⟨out, 2, M * 1024 * 1024, [(domainOf u1, [])], [(domainOf u1, 0)],
          [⟨domainOf u1, domPath (initFPD out 2 M) (domainOf u1), 2,
            c1.length + c2.length, [u1, u2]⟩,
           ⟨domainOf u1, domPath (initFPD out 2 M) (domainOf u1), 1, c3.length, [u3]⟩],
          [(domPath (initFPD out 2 M) (domainOf u1), renderBuffer [⟨u3, c3⟩])], 2⟩ := by
    unfold fpd_finalize
    show List.foldl _ _ [domainOf u1] = _
    rw [List.foldl_cons]
    rw [getBuf_singleton]
    rw [if_neg (show ¬(([] : List BufItem) ++ ([⟨u3, c3⟩] : List BufItem) = []) by simp)]
    rw [hflush4]
    rw [List.foldl_nil]
  simp only [e1, e2, e3, e4, getBuf_singleton, List.map_cons, List.map_nil,
    and_self, and_true, true_and]

/-- Witness for C3 at concrete inputs: the three saves for domain `d.com`
with contents `A`, `B`, `C` and `buffer_size = 2`. -/
theorem C3_flush_trigger_witness :
    pyBlank (chars "A") = false ∧
    domainOf (chars "https://d.com/2") = domainOf (chars "https://d.com/1") ∧
    (chars "A").length < 10 * 1024 * 1024 ∧
    (let s1 := (fpd_save false (initFPD (chars "out") 2 10)
        (chars "https://d.com/1") (chars "A")).1
     let s2 := (fpd_save false s1 (chars "https://d.com/2") (chars "B")).1
     let s3 := (fpd_save false s2 (chars "https://d.com/3") (chars "C")).1
     let s4 := fpd_finalize false s3
     s1.writeCount = 0 ∧ s2.writeCount = 1 ∧
     getBuf s2 (domainOf (chars "https://d.com/1")) = [] ∧
     s2.saved_files.map SavedDomainFileInfo.urls
       = [[chars "https://d.com/1", chars "https://d.com/2"]] ∧
     s3.writeCount = 1 ∧ s4.writeCount = 2 ∧
     s4.saved_files.map SavedDomainFileInfo.urls
       = [[chars "https://d.com/1", chars "https://d.com/2"], [chars "https://d.com/3"]]) :=
  ⟨by decide, by decide, by decide,
   C3_flush_trigger 10 (chars "out") (chars "https://d.com/1") (chars "https://d.com/2")
     (chars "https://d.com/3") (chars "A") (chars "B") (chars "C")
     (by decide) (by decide) (by decide) (by decide) (by decide)
     (by decide) (by decide) (by decide)⟩

/-! ### Discovery-distance lemmas for the v1 crawler -/

theorem dedupAux_subset (l : List Str) : ∀ (seen : List Str) (a : Str),
    a ∈ dedupAux seen l → a ∈ l := by
  induction l with
  | nil => intro seen a h; exact absurd h (List.not_mem_nil a)
  | cons x xs ih =>
    intro seen a h
    unfold dedupAux at h
    by_cases hx : x ∈ seen
    · rw [if_pos hx] at h
      exact List.mem_cons_of_mem x (ih seen a h)
    · rw [if_neg hx] at h
      rcases List.mem_cons.mp h with h1 | h1
      · exact h1 ▸ List.mem_cons_self x xs
      · exact List.mem_cons_of_mem x (ih (x :: seen) a h1)

theorem grow_mono (env : CrawlEnv) (ae : Bool) (B B2 : List Str)
    (h : ∀ x ∈ B, x ∈ B2) : ∀ x ∈ grow env ae B, x ∈ grow env ae B2 := by
  intro x hx
  unfold grow at hx ⊢
  rcases List.mem_append.mp hx with h1 | h1
  · exact List.mem_append_left _ (h x h1)
  · obtain ⟨u, hu, hv⟩ := List.mem_flatMap.mp h1
    exact List.mem_append_right _ (List.mem_flatMap.mpr ⟨u, h u hu, hv⟩)

theorem growIter_mono (env : CrawlEnv) (ae : Bool) : ∀ (n : Nat) (B B2 : List Str),
    (∀ x ∈ B, x ∈ B2) → ∀ x ∈ growIter env ae B n, x ∈ growIter env ae B2 n := by
  intro n
  induction n with
  | zero => intro B B2 h; exact h
  | succ m ih =>
    intro B B2 h
    exact ih (grow env ae B) (grow env ae B2) (grow_mono env ae B B2 h)

theorem subset_growIter (env : CrawlEnv) (ae : Bool) : ∀ (n : Nat) (B : List Str),
    ∀ x ∈ B, x ∈ growIter env ae B n := by
  intro n
  induction n with
  | zero => intro B x hx; exact hx
  | succ m ih =>
    intro B x hx
    exact ih (grow env ae B) x (List.mem_append_left _ hx)

theorem cleanup_fresh_mem_grow (env : CrawlEnv) (ae : Bool) (it : ScrapItemV1)
    (hitae : it.allow_external_links = ae) (B : List Str) (u : Str) (hu : u ∈ B)
    (hsucc : env.success u = true) (vis : List Str) :
    ∀ l ∈ dedupAux []
        (((env.internal u ++ if it.allow_external_links then env.external u else []).map
          cleanup_url_v1).filter (fun l => l ∉ vis)),
      cleanup_url_v1 l ∈ grow env ae B := by
  intro l hl
  have hl2 := dedupAux_subset _ _ _ hl
  have hl3 := (List.mem_filter.mp hl2).1
  obtain ⟨l0, hl0, hleq⟩ := List.mem_map.mp hl3
  have hdisc : cleanup_url_v1 l ∈ discovers env ae u := by
    unfold discovers
    rw [if_pos hsucc, hitae] at *
    rw [← hleq]
    exact List.mem_map_of_mem (fun l2 => cleanup_url_v1 (cleanup_url_v1 l2)) hl0
  exact List.mem_append_right _ (List.mem_flatMap.mpr ⟨u, hu, hdisc⟩)

theorem processOne_log_subset (env : CrawlEnv) (ae : Bool)
    (recur : Option ScrapItemV1 → List Str → CrawlSt → CrawlSt)
    (Hrec : ∀ (item2 : Option ScrapItemV1) (urls2 : List Str) (st2 : CrawlSt)
        (B2 : List Str) (m : Nat), itemFuel item2 ≤ m →
        (∀ it2, item2 = some it2 → it2.allow_external_links = ae) →
        (∀ u2 ∈ urls2, cleanup_url_v1 u2 ∈ B2) →
        ∀ x ∈ (recur item2 urls2 st2).fetchLog,
          x ∈ st2.fetchLog ∨ x ∈ growIter env ae B2 m)
    (item : Option ScrapItemV1) (hblock : itemBlocked item = false)
    (hae : ∀ it2, item = some it2 → it2.allow_external_links = ae)
    (B : List Str) (n : Nat) (hfuel : itemFuel item ≤ n)
    (url : Str) (st : CrawlSt) (hu : cleanup_url_v1 url ∈ B) :
    ∀ x ∈ (processOne env recur item st url).fetchLog,
      x ∈ st.fetchLog ∨ x ∈ growIter env ae B n := by
  intro x hx
  unfold processOne at hx
  by_cases hv : cleanup_url_v1 url ∈ st.visited
  · rw [if_pos hv] at hx
    exact Or.inl hx
  · rw [if_neg hv] at hx
    by_cases hsk : skipHit item (cleanup_url_v1 url) = true
    · rw [if_pos hsk] at hx
      exact Or.inl hx
    · rw [if_neg hsk] at hx
      have hmem1 : ∀ y ∈ st.fetchLog ++ [cleanup_url_v1 url],
          y ∈ st.fetchLog ∨ y ∈ growIter env ae B n := by
        intro y hy
        rcases List.mem_append.mp hy with h1 | h1
        · exact Or.inl h1
        · rcases List.mem_cons.mp h1 with h2 | h2
          · exact Or.inr (h2 ▸ subset_growIter env ae n B _ hu)
          · exact absurd h2 (List.not_mem_nil y)
      cases item with
      | none => exact hmem1 x hx
      | some it =>
        dsimp only at hx
        by_cases hsucc : env.success (cleanup_url_v1 url) = true
        · rw [if_pos hsucc] at hx
          by_cases hfr : dedupKeepFirst
              (((env.internal (cleanup_url_v1 url) ++
                if it.allow_external_links then env.external (cleanup_url_v1 url)
                else []).map cleanup_url_v1).filter
                (fun l => l ∉ st.visited ++ [cleanup_url_v1 url])) = []
          · rw [if_pos hfr] at hx
            exact hmem1 x hx
          · rw [if_neg hfr] at hx
            have hone : 1 ≤ it.depth := by
              unfold itemBlocked at hblock
              simpa using hblock
            have hn1 : 1 ≤ n := by
              have : itemFuel (some it) = it.depth.toNat := rfl
              rw [this] at hfuel
              omega
            obtain ⟨m, rfl⟩ : ∃ m, n = m + 1 := ⟨n - 1, by omega⟩
            have hrec := Hrec
              (if it.depth - 1 < 1 then none
               else some { it with url := cleanup_url_v1 url, depth := it.depth - 1 })
              _ _ (grow env ae B) m
              (by
                by_cases hd : it.depth - 1 < 1
                · rw [if_pos hd]
                  exact Nat.zero_le m
                · rw [if_neg hd]
                  show (it.depth - 1).toNat ≤ m
                  have : itemFuel (some it) = it.depth.toNat := rfl
                  rw [this] at hfuel
                  omega)
              (by
                intro it2 h2
                by_cases hd : it.depth - 1 < 1
                · rw [if_pos hd] at h2
                  exact absurd h2 (by simp)
                · rw [if_neg hd] at h2
                  have := Option.some.inj h2
                  rw [← this]
                  exact hae it rfl)
              (cleanup_fresh_mem_grow env ae it (hae it rfl) B (cleanup_url_v1 url) hu
                hsucc _)
              x hx
            rcases hrec with h1 | h1
            · exact hmem1 x h1
            · exact Or.inr h1
        · rw [if_neg hsucc] at hx
          exact hmem1 x hx

theorem processList_log_subset (env : CrawlEnv) (ae : Bool)
    (recur : Option ScrapItemV1 → List Str → CrawlSt → CrawlSt)
    (Hrec : ∀ (item2 : Option ScrapItemV1) (urls2 : List Str) (st2 : CrawlSt)
        (B2 : List Str) (m : Nat), itemFuel item2 ≤ m →
        (∀ it2, item2 = some it2 → it2.allow_external_links = ae) →
        (∀ u2 ∈ urls2, cleanup_url_v1 u2 ∈ B2) →
        ∀ x ∈ (recur item2 urls2 st2).fetchLog,
          x ∈ st2.fetchLog ∨ x ∈ growIter env ae B2 m)
    (item : Option ScrapItemV1) (hblock : itemBlocked item = false)
    (hae : ∀ it2, item = some it2 → it2.allow_external_links = ae)
    (B : List Str) (n : Nat) (hfuel : itemFuel item ≤ n) :
    ∀ (urls : List Str) (st : CrawlSt),
      (∀ u ∈ urls, cleanup_url_v1 u ∈ B) →
      ∀ x ∈ (processList env recur item urls st).fetchLog,
        x ∈ st.fetchLog ∨ x ∈ growIter env ae B n := by
  intro urls
  induction urls with
  | nil =>
    intro st hurls x hx
    exact Or.inl hx
  | cons url rest ih =>
    intro st hurls x hx
    unfold processList at hx
    rcases ih (processOne env recur item st url)
        (fun u hu2 => hurls u (List.mem_cons_of_mem url hu2)) x hx with h | h
    · exact processOne_log_subset env ae recur Hrec item hblock hae B n hfuel url st
        (hurls url (List.mem_cons_self url rest)) x h
    · exact Or.inr h

theorem crawlGo_log_subset (env : CrawlEnv) (ae : Bool) :
    ∀ (fuel : Nat) (item : Option ScrapItemV1) (urls : List Str) (st : CrawlSt)
      (B : List Str) (n : Nat),
      itemFuel item ≤ n →
      (∀ it2, item = some it2 → it2.allow_external_links = ae) →
      (∀ u ∈ urls, cleanup_url_v1 u ∈ B) →
      ∀ x ∈ (crawlGo env fuel item urls st).fetchLog,
        x ∈ st.fetchLog ∨ x ∈ growIter env ae B n := by
  intro fuel
  induction fuel with
  | zero =>
    intro item urls st B n hfuel hae hurls x hx
    unfold crawlGo at hx
    by_cases hb : itemBlocked item = true
    · rw [if_pos hb] at hx
      exact Or.inl hx
    · rw [if_neg hb] at hx
      exact processList_log_subset env ae _
        (fun item2 urls2 st2 B2 m _ _ _ x2 hx2 => Or.inl hx2)
        item (Bool.not_eq_true _ ▸ eq_false_of_ne_true hb) hae B n hfuel urls st hurls x hx
  | succ fuel ih =>
    intro item urls st B n hfuel hae hurls x hx
    unfold crawlGo at hx
    by_cases hb : itemBlocked item = true
    · rw [if_pos hb] at hx
      exact Or.inl hx
    · rw [if_neg hb] at hx
      exact processList_log_subset env ae (crawlGo env fuel)
        (fun item2 urls2 st2 B2 m h1 h2 h3 => ih item2 urls2 st2 B2 m h1 h2 h3)
        item (eq_false_of_ne_true hb) hae B n hfuel urls st hurls x hx

/-- C2 counterexample: a root item with depth budget 0 fetches NOTHING —
`crawl_parallel` returns at the `scrap_item.depth < 1` guard before
fetching the root — while the claim says it fetches exactly the root page.
Here the Page Fetcher would succeed and even offers links. -/
theorem C2_depth_counterexample :
    (crawl_parallel ⟨fun _ => true, fun _ => [chars "http://r.example/a"], fun _ => []⟩
        (some ⟨chars "http://r.example", 0, false, none⟩)
        [chars "http://r.example"] ⟨[], []⟩).fetchLog = [] ∧
    ([] : List Str) ≠ [cleanup_url_v1 (chars "http://r.example")] := by
  refine ⟨rfl, ?_⟩
  decide

/-- C2 amended: for every root item and every Page Fetcher behaviour, each
page the run fetches lies at discovery distance at most `depth` from the
(cleaned) root — `ballList` is the `depth`-fold expansion of the root
along successful fetches' links under the item's external-link policy —
and with depth budget 0 (the claim said "exactly the root") the run
fetches nothing and changes nothing. -/
theorem C2_depth_amended (env : CrawlEnv) (it : ScrapItemV1) :
    (∀ x ∈ (crawl_parallel env (some it) [it.url] ⟨[], []⟩).fetchLog,
      x ∈ ballList env it.allow_external_links (cleanup_url_v1 it.url) it.depth.toNat) ∧
    (it.depth ≤ 0 → crawl_parallel env (some it) [it.url] ⟨[], []⟩ = ⟨[], []⟩) := by
  constructor
  · intro x hx
    have h := crawlGo_log_subset env it.allow_external_links (itemFuel (some it))
      (some it) [it.url] ⟨[], []⟩ [cleanup_url_v1 it.url] it.depth.toNat
      (Nat.le_refl _)
      (fun it2 h2 => by rw [← Option.some.inj h2])
      (by
        intro u hu
        rcases List.mem_cons.mp hu with h1 | h1
        · rw [h1]
          exact List.mem_cons_self _ _
        · exact absurd h1 (List.not_mem_nil u))
      x hx
    rcases h with h1 | h1
    · exact absurd h1 (List.not_mem_nil x)
    · exact h1
  · intro hd
    have hb : itemBlocked (some it) = true := by
      unfold itemBlocked
      simp only [decide_eq_true_eq]
      omega
    unfold crawl_parallel
    cases hf : itemFuel (some it) with
    | zero =>
      unfold crawlGo
      rw [if_pos hb]
    | succ m =>
      unfold crawlGo
      rw [if_pos hb]

/-- Witness for C2 amended: a concrete one-link site crawled with depth 1
(the fetched root lies in the distance-1 ball) and a depth-0 item (the run
terminates with nothing fetched). -/
theorem C2_depth_amended_witness :
    cleanup_url_v1 (chars "http://r.example")
      ∈ (crawl_parallel
          ⟨fun _ => true,
           fun u => if u = chars "http://r.example" then [chars "http://r.example/a"] else [],
           fun _ => []⟩
          (some ⟨chars "http://r.example", 1, false, none⟩)
          [chars "http://r.example"] ⟨[], []⟩).fetchLog ∧
    cleanup_url_v1 (chars "http://r.example")
      ∈ ballList
          ⟨fun _ => true,
           fun u => if u = chars "http://r.example" then [chars "http://r.example/a"] else [],
           fun _ => []⟩
          false (cleanup_url_v1 (chars "http://r.example")) 1 ∧
    crawl_parallel
        ⟨fun _ => true,
         fun u => if u = chars "http://r.example" then [chars "http://r.example/a"] else [],
         fun _ => []⟩
        (some ⟨chars "http://r.example", 0, false, none⟩)
        [chars "http://r.example"] ⟨[], []⟩ = ⟨[], []⟩ := by
  have hmem : cleanup_url_v1 (chars "http://r.example")
      ∈ (crawl_parallel
          ⟨fun _ => true,
           fun u => if u = chars "http://r.example" then [chars "http://r.example/a"] else [],
           fun _ => []⟩
          (some ⟨chars "http://r.example", 1, false, none⟩)
          [chars "http://r.example"] ⟨[], []⟩).fetchLog := by decide
  refine ⟨hmem, ?_, ?_⟩
  · exact (C2_depth_amended
      ⟨fun _ => true,
       fun u => if u = chars "http://r.example" then [chars "http://r.example/a"] else [],
       fun _ => []⟩
      ⟨chars "http://r.example", 1, false, none⟩).1 _ hmem
  · exact (C2_depth_amended
      ⟨fun _ => true,
       fun u => if u = chars "http://r.example" then [chars "http://r.example/a"] else [],
       fun _ => []⟩
      ⟨chars "http://r.example", 0, false, none⟩).2 (by decide)
/-! ### Character and splitting lemmas for the URL normalizer (C4) -/

theorem isUpper_iff_toNat (c : Char) : c.isUpper = true ↔ 65 ≤ c.toNat ∧ c.toNat ≤ 90 := by
  simp only [Char.isUpper, decide_eq_true_eq, Bool.and_eq_true]
  exact ⟨fun h => ⟨h.1, h.2⟩, fun h => ⟨h.1, h.2⟩⟩

theorem isLower_iff_toNat (c : Char) : c.isLower = true ↔ 97 ≤ c.toNat ∧ c.toNat ≤ 122 := by
  simp only [Char.isLower, decide_eq_true_eq, Bool.and_eq_true]
  exact ⟨fun h => ⟨h.1, h.2⟩, fun h => ⟨h.1, h.2⟩⟩

theorem py_lower_toNat_upper (c : Char) (h : 65 ≤ c.toNat ∧ c.toNat ≤ 90) :
    (py_lower c).toNat = c.toNat + 32 := by
  unfold py_lower
  rw [if_pos h]
  have hv : Nat.isValidChar (c.toNat + 32) := by
    left
    have := h.2
    omega
  simp only [Char.ofNat, dif_pos hv]
  show (UInt32.ofNatCore (c.toNat + 32) _).toNat = c.toNat + 32
  simp [UInt32.ofNatCore, UInt32.toNat]

theorem py_lower_eq_self (c : Char) (h : ¬(65 ≤ c.toNat ∧ c.toNat ≤ 90)) :
    py_lower c = c := by
  unfold py_lower
  rw [if_neg h]

theorem py_lower_isAlpha (c : Char) (h : c.isAlpha = true) :
    (py_lower c).isAlpha = true := by
  by_cases hu : 65 ≤ c.toNat ∧ c.toNat ≤ 90
  · have ht := py_lower_toNat_upper c hu
    have hl : (py_lower c).isLower = true := (isLower_iff_toNat _).mpr (by omega)
    simp [Char.isAlpha, hl]
  · rw [py_lower_eq_self c hu]
    exact h

theorem py_lower_schemeChar (c : Char) (h : isSchemeChar c = true) :
    isSchemeChar (py_lower c) = true := by
  by_cases hu : 65 ≤ c.toNat ∧ c.toNat ≤ 90
  · have ht := py_lower_toNat_upper c hu
    have hl : (py_lower c).isLower = true := (isLower_iff_toNat _).mpr (by omega)
    have : (py_lower c).isAlphanum = true := by
      simp [Char.isAlphanum, Char.isAlpha, hl]
    simp [isSchemeChar, this]
  · rw [py_lower_eq_self c hu]
    exact h

theorem py_lower_idem (c : Char) : py_lower (py_lower c) = py_lower c := by
  by_cases hu : 65 ≤ c.toNat ∧ c.toNat ≤ 90
  · have ht := py_lower_toNat_upper c hu
    exact py_lower_eq_self _ (by omega)
  · rw [py_lower_eq_self c hu, py_lower_eq_self c hu]

theorem schemeChar_ne (c : Char) (h : isSchemeChar c = true) (d : Char)
    (hd : isSchemeChar d = false) : c ≠ d := by
  intro he
  rw [he, hd] at h
  exact Bool.false_ne_true h

theorem splitFirst_none_of_not_mem (c : Char) (s : Str) (h : c ∉ s) :
    splitFirst c s = (s, none) := by
  induction s with
  | nil => rfl
  | cons a t ih =>
    have hac : ¬(a = c) := fun he => h (he ▸ List.mem_cons_self a t)
    unfold splitFirst
    rw [if_neg hac, ih (fun hm => h (List.mem_cons_of_mem a hm))]

theorem splitFirst_before_not (c : Char) (s : Str) :
    ∀ a ∈ (splitFirst c s).1, a ≠ c := by
  induction s with
  | nil => intro a ha; exact absurd ha (List.not_mem_nil a)
  | cons b t ih =>
    intro a ha
    unfold splitFirst at ha
    by_cases hbc : b = c
    · rw [if_pos hbc] at ha
      exact absurd ha (List.not_mem_nil a)
    · rw [if_neg hbc] at ha
      rcases List.mem_cons.mp ha with h1 | h1
      · exact h1 ▸ hbc
      · exact ih a h1

theorem splitFirst_eq_append (c : Char) (s r : Str)
    (h : (splitFirst c s).2 = some r) : s = (splitFirst c s).1 ++ c :: r := by
  induction s generalizing r with
  | nil => exact absurd h (by simp [splitFirst])
  | cons b t ih =>
    unfold splitFirst at h ⊢
    by_cases hbc : b = c
    · rw [if_pos hbc] at h ⊢
      have := Option.some.inj h
      rw [List.nil_append, ← this, hbc]
    · rw [if_neg hbc] at h ⊢
      have := ih r h
      rw [List.cons_append, ← this]

theorem splitFirst_concat (c : Char) (l1 l2 : Str) (h : c ∉ l1) :
    splitFirst c (l1 ++ c :: l2) = (l1, some l2) := by
  induction l1 with
  | nil =>
    rw [List.nil_append]
    unfold splitFirst
    rw [if_pos rfl]
  | cons a t ih =>
    have hac : ¬(a = c) := fun he => h (he ▸ List.mem_cons_self a t)
    rw [List.cons_append]
    unfold splitFirst
    rw [if_neg hac, ih (fun hm => h (List.mem_cons_of_mem a hm))]

theorem splitFirst_fst_subset (c : Char) (s : Str) : ∀ a ∈ (splitFirst c s).1, a ∈ s := by
  induction s with
  | nil => intro a ha; exact absurd ha (List.not_mem_nil a)
  | cons b t ih =>
    intro a ha
    unfold splitFirst at ha
    by_cases hbc : b = c
    · rw [if_pos hbc] at ha
      exact absurd ha (List.not_mem_nil a)
    · rw [if_neg hbc] at ha
      rcases List.mem_cons.mp ha with h1 | h1
      · exact h1 ▸ List.mem_cons_self b t
      · exact List.mem_cons_of_mem b (ih a h1)

theorem splitFirst_snd_subset (c : Char) (s r : Str) (h : (splitFirst c s).2 = some r) :
    ∀ a ∈ r, a ∈ s := by
  intro a ha
  rw [splitFirst_eq_append c s r h]
  exact List.mem_append_right _ (List.mem_cons_of_mem c ha)

theorem rstripOne_eq_self (s : Str) (h : s.getLast? ≠ some '/') : rstripOne s = s := by
  unfold rstripOne
  split
  · rename_i t heq
    rw [← List.head?_reverse, heq] at h
    exact absurd rfl h
  · rfl

theorem rstripOne_sublist (s : Str) : (rstripOne s).Sublist s := by
  unfold rstripOne
  split
  · rename_i t heq
    have : s = (t.reverse) ++ ['/'] := by
      have := congrArg List.reverse heq
      simpa using this
    rw [this]
    exact (List.sublist_append_left t.reverse ['/'])
  · exact List.Sublist.refl s

theorem takeWhile_all_eq (p : Char → Bool) (l : Str) (h : ∀ a ∈ l, p a = true) :
    l.takeWhile p = l := by
  induction l with
  | nil => rfl
  | cons a t ih =>
    rw [List.takeWhile_cons, if_pos (h a (List.mem_cons_self a t))]
    rw [ih (fun b hb => h b (List.mem_cons_of_mem a hb))]

theorem takeWhile_append_head_neg (p : Char → Bool) (l1 l2 : Str)
    (h1 : ∀ a ∈ l1, p a = true)
    (h2 : l2 = [] ∨ ∃ x xs, l2 = x :: xs ∧ p x = false) :
    (l1 ++ l2).takeWhile p = l1 ∧ (l1 ++ l2).dropWhile p = l2 := by
  induction l1 with
  | nil =>
    rcases h2 with h | ⟨x, xs, rfl, hx⟩
    · rw [h]
      exact ⟨rfl, rfl⟩
    · rw [List.nil_append, List.takeWhile_cons, List.dropWhile_cons, if_neg (by simp [hx]),
        hx]
      exact ⟨rfl, by simp⟩
  | cons a t ih =>
    have ha := h1 a (List.mem_cons_self a t)
    have hrec := ih (fun b hb => h1 b (List.mem_cons_of_mem a hb))
    rw [List.cons_append, List.takeWhile_cons, List.dropWhile_cons, if_pos ha, ha]
    constructor
    · rw [hrec.1]
    · simpa using hrec.2

theorem splitScheme_cases (s : Str) :
    ((splitScheme s).1 = [] ∧ (splitScheme s).2 = s) ∨
    (∃ c rest after, s = (c :: rest) ++ ':' :: after ∧ c.isAlpha = true ∧
      (c :: rest).all isSchemeChar = true ∧
      (splitScheme s).1 = (c :: rest).map py_lower ∧ (splitScheme s).2 = after) := by
  cases hsf : splitFirst ':' s with
  | mk before o =>
    cases o with
    | none =>
      left
      unfold splitScheme
      rw [hsf]
      exact ⟨rfl, rfl⟩
    | some after =>
      cases before with
      | nil =>
        left
        unfold splitScheme
        rw [hsf]
        exact ⟨rfl, rfl⟩
      | cons c rest =>
        by_cases hcond : c.isAlpha = true ∧ (c :: rest).all isSchemeChar = true
        · right
          refine ⟨c, rest, after, ?_, hcond.1, hcond.2, ?_, ?_⟩
          · have h2 : (splitFirst ':' s).2 = some after := by rw [hsf]
            have h1 : (splitFirst ':' s).1 = c :: rest := by rw [hsf]
            have h3 := splitFirst_eq_append ':' s after h2
            rw [h1] at h3
            exact h3
          · unfold splitScheme
            rw [hsf]
            dsimp only
            rw [if_pos hcond]
          · unfold splitScheme
            rw [hsf]
            dsimp only
            rw [if_pos hcond]
        · left
          constructor
          · unfold splitScheme
            rw [hsf]
            dsimp only
            rw [if_neg hcond]
          · unfold splitScheme
            rw [hsf]
            dsimp only
            rw [if_neg hcond]

theorem splitScheme_snd_subset (s : Str) : ∀ a ∈ (splitScheme s).2, a ∈ s := by
  rcases splitScheme_cases s with ⟨_, h2⟩ | ⟨c, rest, after, hs, _, _, _, h2⟩
  · rw [h2]
    exact fun a ha => ha
  · rw [h2, hs]
    intro a ha
    exact List.mem_append_right _ (List.mem_cons_of_mem _ ha)

theorem splitScheme_of_valid (c : Char) (rest after : Str) (hc : c.isAlpha = true)
    (hall : (c :: rest).all isSchemeChar = true) :
    splitScheme ((c :: rest) ++ ':' :: after) = ((c :: rest).map py_lower, after) := by
  have hnc : (':' : Char) ∉ c :: rest := by
    intro hm
    have := List.all_eq_true.mp hall _ hm
    simp [isSchemeChar] at this
  unfold splitScheme
  rw [splitFirst_concat ':' (c :: rest) after hnc]
  dsimp only
  rw [if_pos ⟨hc, hall⟩]

theorem splitScheme_head_not_alpha (a : Char) (t : Str) (ha : a.isAlpha = false)
    (hane : a ≠ ':') : splitScheme (a :: t) = ([], a :: t) := by
  rcases splitScheme_cases (a :: t) with ⟨h1, h2⟩ | ⟨c, rest, after, hs, hc, _, _, _⟩
  · have hpair : splitScheme (a :: t)
        = ((splitScheme (a :: t)).1, (splitScheme (a :: t)).2) := rfl
    rw [hpair, h1, h2]
  · have hac : a = c := by
      rw [List.cons_append] at hs
      exact (List.cons.inj hs).1
    rw [hac] at ha
    rw [ha] at hc
    exact absurd hc Bool.false_ne_true

theorem splitNetloc_cases (s : Str) :
    (splitNetlocPart s = ([], s) ∧ s.take 2 ≠ ['/', '/']) ∨
    (∃ t, s = '/' :: '/' :: t ∧
      splitNetlocPart s = (t.takeWhile isNetlocChar, t.dropWhile isNetlocChar)) := by
  by_cases h : s.take 2 = ['/', '/']
  · right
    refine ⟨s.drop 2, ?_, ?_⟩
    · have h2 : s.take 2 ++ s.drop 2 = s := List.take_append_drop 2 s
      rw [h] at h2
      exact h2.symm
    · unfold splitNetlocPart
      rw [if_pos h]
  · left
    constructor
    · unfold splitNetlocPart
      rw [if_neg h]
    · exact h

theorem splitNetloc_snd_subset (s : Str) : ∀ a ∈ (splitNetlocPart s).2, a ∈ s := by
  rcases splitNetloc_cases s with ⟨h, _⟩ | ⟨t, hs, h⟩
  · rw [h]
    exact fun a ha => ha
  · rw [h, hs]
    intro a ha
    have := (List.dropWhile_sublist (p := isNetlocChar) (l := t)).subset ha
    exact List.mem_cons_of_mem _ (List.mem_cons_of_mem _ this)

theorem splitNetloc_fst_netlocChar (s : Str) :
    ∀ a ∈ (splitNetlocPart s).1, isNetlocChar a = true := by
  rcases splitNetloc_cases s with ⟨h, _⟩ | ⟨t, hs, h⟩
  · rw [h]
    intro a ha
    exact absurd ha (List.not_mem_nil a)
  · rw [h]
    intro a ha
    exact List.mem_takeWhile_imp ha

theorem dropWhile_head_false (p : Char → Bool) (l : Str) (x : Char) (xs : Str)
    (h : l.dropWhile p = x :: xs) : p x = false := by
  induction l with
  | nil => exact absurd h (by simp)
  | cons a t ih =>
    rw [List.dropWhile_cons] at h
    by_cases hp : p a = true
    · rw [if_pos hp] at h
      exact ih h
    · rw [if_neg hp] at h
      have : a = x := (List.cons.inj h).1
      rw [← this]
      exact eq_false_of_ne_true hp

theorem splitFrag_no_mem (s : Str) (h : '#' ∉ s) : splitFrag s = (s, []) := by
  unfold splitFrag
  rw [splitFirst_none_of_not_mem '#' s h]

theorem splitQuery_no_mem (s : Str) (h : '?' ∉ s) : splitQuery s = (s, []) := by
  unfold splitQuery
  rw [splitFirst_none_of_not_mem '?' s h]

theorem urlsplit_eq_parts (s : Str) (hf : '#' ∉ s) (hq : '?' ∉ s) :
    urlsplit s = ⟨(splitScheme s).1, (splitNetlocPart (splitScheme s).2).1,
      (splitNetlocPart (splitScheme s).2).2, [], []⟩ := by
  have hsub : ∀ a ∈ (splitNetlocPart (splitScheme s).2).2, a ∈ s :=
    fun a ha => splitScheme_snd_subset s a (splitNetloc_snd_subset _ a ha)
  unfold urlsplit
  dsimp only
  rw [splitFrag_no_mem _ (fun hm => hf (hsub _ hm))]
  rw [splitQuery_no_mem _ (fun hm => hq (hsub _ hm))]

theorem netlocChar_ne_slash (a : Char) (h : isNetlocChar a = true) : a ≠ '/' := by
  intro he
  rw [he] at h
  exact absurd h (by decide)

theorem netlocChar_ne_hash (a : Char) (h : isNetlocChar a = true) : a ≠ '#' := by
  intro he
  rw [he] at h
  exact absurd h (by decide)

theorem netlocChar_ne_query (a : Char) (h : isNetlocChar a = true) : a ≠ '?' := by
  intro he
  rw [he] at h
  exact absurd h (by decide)

theorem not_netlocChar_cases (a : Char) (h : isNetlocChar a = false) :
    a = '/' ∨ a = '?' ∨ a = '#' := by
  by_cases h1 : a = '/'
  · exact Or.inl h1
  · by_cases h2 : a = '?'
    · exact Or.inr (Or.inl h2)
    · right
      right
      simp [isNetlocChar] at h
      exact h h1 h2

theorem take_two_slash (s : Str) (h : s.take 2 = ['/', '/']) : ∃ t, s = '/' :: '/' :: t := by
  refine ⟨s.drop 2, ?_⟩
  have h2 := List.take_append_drop 2 s
  rw [h] at h2
  exact h2.symm

theorem splitScheme_fst_schemeChar (s : Str) :
    ∀ a ∈ (splitScheme s).1, isSchemeChar a = true := by
  rcases splitScheme_cases s with ⟨h1, _⟩ | ⟨c, rest, after, _, _, hall, h1, _⟩
  · rw [h1]
    intro a ha
    exact absurd ha (List.not_mem_nil a)
  · rw [h1]
    intro a ha
    obtain ⟨b, hb, hba⟩ := List.mem_map.mp ha
    rw [← hba]
    exact py_lower_schemeChar b (List.all_eq_true.mp hall b hb)

theorem splitScheme_reparse (s X : Str) (hsc : (splitScheme s).1 ≠ []) :
    splitScheme ((splitScheme s).1 ++ ':' :: X) = ((splitScheme s).1, X) := by
  rcases splitScheme_cases s with ⟨h1, _⟩ | ⟨c, rest, after, _, hc, hall, h1, _⟩
  · exact absurd h1 hsc
  · rw [h1]
    have hmc : (c :: rest).map py_lower = py_lower c :: rest.map py_lower := rfl
    rw [hmc]
    have hall2 : (py_lower c :: rest.map py_lower).all isSchemeChar = true := by
      rw [← hmc]
      apply List.all_eq_true.mpr
      intro a ha
      obtain ⟨b, hb, hba⟩ := List.mem_map.mp ha
      rw [← hba]
      exact py_lower_schemeChar b (List.all_eq_true.mp hall b hb)
    rw [splitScheme_of_valid (py_lower c) (rest.map py_lower) X
      (py_lower_isAlpha c hc) hall2]
    have hidem : (py_lower c :: rest.map py_lower).map py_lower
        = py_lower c :: rest.map py_lower := by
      rw [← hmc, List.map_map]
      exact List.map_congr_left (fun a _ => py_lower_idem a)
    rw [hidem]

theorem splitScheme_nil : splitScheme ([] : Str) = ([], []) := rfl

theorem urlunsplit_core_char (sc nl pa : Str)
    (hnlchar : ∀ a ∈ nl, isNetlocChar a = true)
    (hhead : pa = [] ∨ (∃ t2, pa = '/' :: t2) ∨
      (nl = [] ∧ pa.take 2 ≠ ['/', '/'] ∧ (sc = [] → splitScheme pa = ([], pa))))
    (hpl : pa.getLast? ≠ some '/') :
    ∃ X : Str,
      urlunsplit ⟨sc, nl, pa, [], []⟩ = (if sc ≠ [] then sc ++ ':' :: X else X) ∧
      splitNetlocPart X = (nl, pa) ∧
      (sc = [] → splitScheme X = ([], X)) ∧
      (∀ a ∈ X, a ∈ nl ∨ a ∈ pa ∨ a = '/') ∧
      X.getLast? ≠ some '/' := by
  have hunsp : urlunsplit ⟨sc, nl, pa, [], []⟩
      = (if sc ≠ [] then
          sc ++ ':' :: (if nl ≠ [] ∨ pa.take 2 = ['/', '/'] then
            ['/', '/'] ++ nl ++ (if pa ≠ [] ∧ pa.take 1 ≠ ['/'] then '/' :: pa else pa)
          else pa)
        else (if nl ≠ [] ∨ pa.take 2 = ['/', '/'] then
            ['/', '/'] ++ nl ++ (if pa ≠ [] ∧ pa.take 1 ≠ ['/'] then '/' :: pa else pa)
          else pa)) := by
    unfold urlunsplit
    dsimp only
    rw [if_neg (show ¬(([] : Str) ≠ []) by simp), if_neg (show ¬(([] : Str) ≠ []) by simp)]
  by_cases hbr : nl ≠ [] ∨ pa.take 2 = ['/', '/']
  · -- the netloc branch of urlunsplit fires; the leading-slash insertion is a no-op
    have hins : (if pa ≠ [] ∧ pa.take 1 ≠ ['/'] then '/' :: pa else pa) = pa := by
      rcases hhead with h | ⟨t2, h⟩ | ⟨hnlnil, htk, _⟩
      · rw [if_neg (fun hcon => hcon.1 h)]
      · rw [if_neg (fun hcon => hcon.2 (by rw [h]; rfl))]
      · rcases hbr with h4 | h4
        · exact absurd hnlnil h4
        · exact absurd h4 htk
    have hcore : (if nl ≠ [] ∨ pa.take 2 = ['/', '/'] then
        ['/', '/'] ++ nl ++ (if pa ≠ [] ∧ pa.take 1 ≠ ['/'] then '/' :: pa else pa)
        else pa) = '/' :: '/' :: (nl ++ pa) := by
      rw [if_pos hbr, hins, List.append_assoc]
      rfl
    refine ⟨'/' :: '/' :: (nl ++ pa), ?_, ?_, ?_, ?_, ?_⟩
    · rw [hunsp, hcore]
    · unfold splitNetlocPart
      rw [if_pos (show ('/' :: '/' :: (nl ++ pa)).take 2 = ['/', '/'] from rfl)]
      have hside : pa = [] ∨ ∃ x xs, pa = x :: xs ∧ isNetlocChar x = false := by
        rcases hhead with h | ⟨t2, h⟩ | ⟨hnlnil, htk, _⟩
        · exact Or.inl h
        · exact Or.inr ⟨'/', t2, h, by decide⟩
        · rcases hbr with h4 | h4
          · exact absurd hnlnil h4
          · exact absurd h4 htk
      have hsplit := takeWhile_append_head_neg isNetlocChar nl pa hnlchar hside
      show ((nl ++ pa).takeWhile isNetlocChar, (nl ++ pa).dropWhile isNetlocChar) = (nl, pa)
      rw [hsplit.1, hsplit.2]
    · intro _
      exact splitScheme_head_not_alpha '/' _ (by decide) (by decide)
    · intro a ha
      rcases List.mem_cons.mp ha with h4 | h4
      · exact Or.inr (Or.inr h4)
      · rcases List.mem_cons.mp h4 with h5 | h5
        · exact Or.inr (Or.inr h5)
        · rcases List.mem_append.mp h5 with h6 | h6
          · exact Or.inl h6
          · exact Or.inr (Or.inl h6)
    · cases pa with
      | cons x xs =>
        have hsh : '/' :: '/' :: (nl ++ x :: xs) = (('/' :: '/' :: nl) ++ x :: xs) := by
          rw [List.cons_append, List.cons_append]
        rw [hsh, List.getLast?_append_of_ne_nil _ (List.cons_ne_nil x xs)]
        exact hpl
      | nil =>
        have hnlne : nl ≠ [] := by
          rcases hbr with h4 | h4
          · exact h4
          · exact absurd h4 (by decide)
        have hsh : '/' :: '/' :: (nl ++ []) = (['/', '/'] ++ nl) := by
          rw [List.append_nil]
          rfl
        rw [hsh, List.getLast?_append_of_ne_nil _ hnlne]
        intro hcon
        have hmem : '/' ∈ nl := by
          obtain ⟨hne2, hgl⟩ := List.mem_getLast?_eq_getLast (show '/' ∈ nl.getLast? by
            rw [hcon]; rfl)
          rw [hgl]
          exact List.getLast_mem hne2
        exact netlocChar_ne_slash '/' (hnlchar '/' hmem) rfl
  · -- no netloc part: the core is just the path
    have hnlnil : nl = [] := by
      by_cases h4 : nl = []
      · exact h4
      · exact absurd (Or.inl h4) hbr
    have htk2 : pa.take 2 ≠ ['/', '/'] := fun h4 => hbr (Or.inr h4)
    refine ⟨pa, ?_, ?_, ?_, ?_, ?_⟩
    · rw [hunsp, if_neg hbr]
    · unfold splitNetlocPart
      rw [if_neg htk2, hnlnil]
    · intro hscnil
      rcases hhead with h | ⟨t2, h⟩ | ⟨_, _, h⟩
      · rw [h]
        exact splitScheme_nil
      · rw [h]
        exact splitScheme_head_not_alpha '/' t2 (by decide) (by decide)
      · exact h hscnil
    · intro a ha
      exact Or.inr (Or.inl ha)
    · exact hpl

theorem cleanup_reparse_props (s : Str) (hf : '#' ∉ s) (hq : '?' ∉ s)
    (hlast : s.getLast? ≠ some '/') :
    ('#' ∉ urlunsplit (urlsplit s)) ∧ ('?' ∉ urlunsplit (urlsplit s)) ∧
    urlsplit (urlunsplit (urlsplit s)) = urlsplit s ∧
    (urlunsplit (urlsplit s)).getLast? ≠ some '/' := by
  have hps := urlsplit_eq_parts s hf hq
  have hnlchar := splitNetloc_fst_netlocChar (splitScheme s).2
  have hpasub : ∀ a ∈ (splitNetlocPart (splitScheme s).2).2, a ∈ s :=
    fun a ha => splitScheme_snd_subset s a (splitNetloc_snd_subset _ a ha)
  have hpaf : '#' ∉ (splitNetlocPart (splitScheme s).2).2 := fun hm => hf (hpasub _ hm)
  have hpaq : '?' ∉ (splitNetlocPart (splitScheme s).2).2 := fun hm => hq (hpasub _ hm)
  have hsuffix : ∃ pre, s = pre ++ (splitNetlocPart (splitScheme s).2).2 := by
    have h1 : ∃ pre1, s = pre1 ++ (splitScheme s).2 := by
      rcases splitScheme_cases s with ⟨_, h2⟩ | ⟨c, rest, after, hs, _, _, _, h2⟩
      · exact ⟨[], by rw [List.nil_append, h2]⟩
      · refine ⟨(c :: rest) ++ [':'], ?_⟩
        rw [h2, hs, List.append_assoc]
        rfl
    have h2 : ∃ pre2, (splitScheme s).2 = pre2 ++ (splitNetlocPart (splitScheme s).2).2 := by
      rcases splitNetloc_cases (splitScheme s).2 with ⟨h3, _⟩ | ⟨t, ht, h3⟩
      · exact ⟨[], by rw [List.nil_append, h3]⟩
      · refine ⟨'/' :: '/' :: t.takeWhile isNetlocChar, ?_⟩
        rw [h3]
        show (splitScheme s).2
          = '/' :: '/' :: (t.takeWhile isNetlocChar ++ t.dropWhile isNetlocChar)
        rw [List.takeWhile_append_dropWhile]
        exact ht
    obtain ⟨pre1, hp1⟩ := h1
    obtain ⟨pre2, hp2⟩ := h2
    refine ⟨pre1 ++ pre2, ?_⟩
    rw [List.append_assoc, ← hp2]
    exact hp1
  have hpl : ((splitNetlocPart (splitScheme s).2).2).getLast? ≠ some '/' := by
    by_cases hpane : (splitNetlocPart (splitScheme s).2).2 = []
    · rw [hpane]
      simp
    · obtain ⟨pre, hpre⟩ := hsuffix
      rw [hpre, List.getLast?_append_of_ne_nil pre hpane] at hlast
      exact hlast
  have hhead : (splitNetlocPart (splitScheme s).2).2 = [] ∨
      (∃ t2, (splitNetlocPart (splitScheme s).2).2 = '/' :: t2) ∨
      ((splitNetlocPart (splitScheme s).2).1 = [] ∧
        ((splitNetlocPart (splitScheme s).2).2).take 2 ≠ ['/', '/'] ∧
        ((splitScheme s).1 = [] →
          splitScheme (splitNetlocPart (splitScheme s).2).2
            = ([], (splitNetlocPart (splitScheme s).2).2))) := by
    rcases hnc : splitNetloc_cases (splitScheme s).2 with ⟨h3, htk⟩ | ⟨t, ht, h3⟩
    · right
      right
      refine ⟨by rw [h3], by rw [h3]; exact htk, ?_⟩
      intro hscnil
      rw [h3]
      rcases splitScheme_cases s with ⟨h5, h6⟩ | ⟨c, rest, after, _, _, _, h5, _⟩
      · have hpair : splitScheme s = ((splitScheme s).1, (splitScheme s).2) := rfl
        rw [h6]
        rw [hpair, h5, h6]
      · rw [hscnil] at h5
        exact absurd h5.symm (List.cons_ne_nil _ _)
    · cases hpc : (splitNetlocPart (splitScheme s).2).2 with
      | nil => exact Or.inl rfl
      | cons x xs =>
        right
        left
        have hpd : t.dropWhile isNetlocChar = x :: xs := by
          rw [← hpc, h3]
        have hxf : isNetlocChar x = false := dropWhile_head_false _ t x xs hpd
        have hx : x = '/' := by
          rcases not_netlocChar_cases x hxf with h4 | h4 | h4
          · exact h4
          · exfalso
            apply hpaq
            rw [hpc, ← h4]
            exact List.mem_cons_self x xs
          · exfalso
            apply hpaf
            rw [hpc, ← h4]
            exact List.mem_cons_self x xs
        exact ⟨xs, by rw [← hx]⟩
  obtain ⟨X, hXeq, hXnet, hXsch, hXmem, hXlast⟩ :=
    urlunsplit_core_char (splitScheme s).1 (splitNetlocPart (splitScheme s).2).1
      (splitNetlocPart (splitScheme s).2).2 hnlchar hhead hpl
  have hveq2 : urlunsplit (urlsplit s)
      = (if (splitScheme s).1 ≠ [] then (splitScheme s).1 ++ ':' :: X else X) := by
    rw [hps]
    exact hXeq
  have hvmem : ∀ a ∈ urlunsplit (urlsplit s), isSchemeChar a = true ∨ a = ':' ∨
      a ∈ (splitNetlocPart (splitScheme s).2).1 ∨
      a ∈ (splitNetlocPart (splitScheme s).2).2 ∨ a = '/' := by
    intro a ha
    rw [hveq2] at ha
    by_cases hsc : (splitScheme s).1 ≠ []
    · rw [if_pos hsc] at ha
      rcases List.mem_append.mp ha with h | h
      · exact Or.inl (splitScheme_fst_schemeChar s a h)
      · rcases List.mem_cons.mp h with h1 | h1
        · exact Or.inr (Or.inl h1)
        · rcases hXmem a h1 with h2 | h2 | h2
          · exact Or.inr (Or.inr (Or.inl h2))
          · exact Or.inr (Or.inr (Or.inr (Or.inl h2)))
          · exact Or.inr (Or.inr (Or.inr (Or.inr h2)))
    · rw [if_neg hsc] at ha
      rcases hXmem a ha with h2 | h2 | h2
      · exact Or.inr (Or.inr (Or.inl h2))
      · exact Or.inr (Or.inr (Or.inr (Or.inl h2)))
      · exact Or.inr (Or.inr (Or.inr (Or.inr h2)))
  have hvf : '#' ∉ urlunsplit (urlsplit s) := by
    intro hm
    rcases hvmem '#' hm with h | h | h | h | h
    · exact absurd h (by decide)
    · exact absurd h (by decide)
    · exact absurd (hnlchar '#' h) (by decide)
    · exact hpaf h
    · exact absurd h (by decide)
  have hvq : '?' ∉ urlunsplit (urlsplit s) := by
    intro hm
    rcases hvmem '?' hm with h | h | h | h | h
    · exact absurd h (by decide)
    · exact absurd h (by decide)
    · exact absurd (hnlchar '?' h) (by decide)
    · exact hpaq h
    · exact absurd h (by decide)
  refine ⟨hvf, hvq, ?_, ?_⟩
  · have h1 := urlsplit_eq_parts (urlunsplit (urlsplit s)) hvf hvq
    rw [hveq2] at h1
    rw [hveq2, h1]
    by_cases hsc : (splitScheme s).1 ≠ []
    · rw [if_pos hsc]
      rw [splitScheme_reparse s X hsc]
      dsimp only
      rw [hXnet]
      dsimp only
      rw [hps]
    · rw [if_neg hsc]
      rw [hXsch (not_not.mp (by simpa using hsc))]
      dsimp only
      rw [hXnet]
      dsimp only
      rw [hps]
      have : (splitScheme s).1 = [] := not_not.mp (by simpa using hsc)
      rw [this]
  · rw [hveq2]
    by_cases hsc : (splitScheme s).1 ≠ []
    · rw [if_pos hsc]
      cases X with
      | nil =>
        have hsh : (splitScheme s).1 ++ ':' :: ([] : Str) = (splitScheme s).1 ++ [':'] := rfl
        rw [hsh, List.getLast?_append_of_ne_nil _ (List.cons_ne_nil ':' [])]
        decide
      | cons y ys =>
        rw [List.append_cons]
        rw [List.getLast?_append_of_ne_nil _ (List.cons_ne_nil y ys)]
        exact hXlast
    · rw [if_neg hsc]
      exact hXlast

theorem cleanup_eval_no_query (u : Str) (hu0 : u ≠ []) (hq : '?' ∉ u) :
    normalize_url u = .ok (urlunsplit (urlsplit (rstripOne (splitFirst '#' u).1))) := by
  have hf1 : '#' ∉ (splitFirst '#' u).1 :=
    fun hm => splitFirst_before_not '#' u _ hm rfl
  have hsub2 := (rstripOne_sublist (splitFirst '#' u).1).subset
  have hf2 : '#' ∉ rstripOne (splitFirst '#' u).1 := fun hm => hf1 (hsub2 hm)
  have hq1 : '?' ∉ (splitFirst '#' u).1 :=
    fun hm => hq (splitFirst_fst_subset '#' u _ hm)
  have hq2 : '?' ∉ rstripOne (splitFirst '#' u).1 := fun hm => hq1 (hsub2 hm)
  unfold normalize_url cleanup_url
  rw [if_neg hu0]
  dsimp only
  have hqq : (urlsplit (rstripOne (splitFirst '#' u).1)).query = [] := by
    rw [urlsplit_eq_parts _ hf2 hq2]
  rw [if_pos hqq]
  rw [urlsplit_eq_parts _ hf2 hq2]
  rfl

/-- C4 counterexample: the normalizer strips only one trailing slash per
call, so it is not idempotent — `http://x.com//` normalizes to
`http://x.com/`, which normalizes further to `http://x.com`. -/
theorem C4_normalize_counterexample :
    normalize_url (chars "http://x.com//") = .ok (chars "http://x.com/") ∧
    normalize_url (chars "http://x.com/") = .ok (chars "http://x.com") ∧
    chars "http://x.com/" ≠ chars "http://x.com" :=
  ⟨rfl, rfl, by decide⟩

/-- C4 amended: the normalizer is idempotent on every URL that carries no
query component (`?` — on which the broken query loop would raise, see C9)
and whose fragment-stripped, once-slash-trimmed form does not still end in
`/` (a second application would shed another slash): for such `u`,
normalizing the result of `normalize_url u` returns it unchanged. -/
theorem C4_normalize_amended (u : Str) (hq : '?' ∉ u)
    (hs : (rstripOne ((splitFirst '#' u).1)).getLast? ≠ some '/') :
    (normalize_url u).bind normalize_url = normalize_url u := by
  by_cases hu0 : u = []
  · rw [hu0]
    rfl
  · have heval := cleanup_eval_no_query u hu0 hq
    have hf1 : '#' ∉ (splitFirst '#' u).1 :=
      fun hm => splitFirst_before_not '#' u _ hm rfl
    have hsub2 := (rstripOne_sublist (splitFirst '#' u).1).subset
    have hf2 : '#' ∉ rstripOne (splitFirst '#' u).1 := fun hm => hf1 (hsub2 hm)
    have hq1 : '?' ∉ (splitFirst '#' u).1 :=
      fun hm => hq (splitFirst_fst_subset '#' u _ hm)
    have hq2 : '?' ∉ rstripOne (splitFirst '#' u).1 := fun hm => hq1 (hsub2 hm)
    obtain ⟨hvf, hvq, hrt, hvlast⟩ :=
      cleanup_reparse_props (rstripOne (splitFirst '#' u).1) hf2 hq2 hs
    rw [heval]
    show normalize_url (urlunsplit (urlsplit (rstripOne (splitFirst '#' u).1)))
      = Except.ok (urlunsplit (urlsplit (rstripOne (splitFirst '#' u).1)))
    by_cases hv0 : urlunsplit (urlsplit (rstripOne (splitFirst '#' u).1)) = []
    · rw [hv0]
      rfl
    · have heval2 := cleanup_eval_no_query _ hv0 hvq
      have h1 : (splitFirst '#' (urlunsplit (urlsplit (rstripOne (splitFirst '#' u).1)))).1
          = urlunsplit (urlsplit (rstripOne (splitFirst '#' u).1)) := by
        rw [splitFirst_none_of_not_mem '#' _ hvf]
      rw [h1, rstripOne_eq_self _ hvlast] at heval2
      rw [heval2, hrt]

/-- Witness for C4: the amended idempotence theorem applied at the concrete
query-free, non-slash-terminated URL `https://x.com/a`. -/
theorem C4_normalize_amended_witness :
    ('?' ∉ chars "https://x.com/a") ∧
    ((rstripOne ((splitFirst '#' (chars "https://x.com/a")).1)).getLast? ≠ some '/') ∧
    (normalize_url (chars "https://x.com/a")).bind normalize_url
      = normalize_url (chars "https://x.com/a") :=
  ⟨by decide, by decide, C4_normalize_amended (chars "https://x.com/a") (by decide) (by decide)⟩

end DocsScraper
